import Mathlib

/-!
Verification development for the Lua bytecode dump codec
(`luaparse.py`, Lua 5.4 reader/writer, instruction-stream cipher and
opcode-correspondence analysis; `luajitparse.py`, LuaJIT reader).

The Python sources are embedded shallowly:
* a byte buffer is a `List Nat` (each element a byte value `0..255`);
* Python's sequential `file.read(n)` is `List.take n` / `List.drop n`
  (it silently returns fewer bytes at end of file);
* `struct.unpack` on a short read raises, modelled as `Except.error`;
* Python exceptions are `Except PErr`;
* a Python `float` is represented by its 64-bit IEEE-754 bit pattern
  (a `Nat`), since the code only moves the 8 raw bytes around;
* a decoded Python `str` is the list of its character code points,
  produced by a faithful model of `bytes.decode("utf-8", errors="replace")`
  (CPython replaces every maximal subpart of an ill-formed sequence with
  one U+FFFD).
-/

abbrev Bytes := List Nat

/-- The Python exceptions raised by the parsers: `struct.error` on a short
read (`truncated`), the varint overflow `ValueError`, the header signature
and version `ValueError`s, the unknown-constant-tag `ValueError`, the
missing-cipher-key `ValueError`, and the instruction-count-mismatch
`ValueError` of `compare_opcodes`. -/
inductive PErr where
  | truncated
  | overflow
  | badSignature
  | badVersion
  | unknownConstTag (t : Nat)
  | missingKey
  | instrCountMismatch
deriving DecidableEq, Repr

deriving instance DecidableEq for Except

/-! ## UTF-8 codec (CPython `bytes.decode("utf-8", errors="replace")` and
`str.encode("utf-8")`) -/

/-- One character of `str.encode("utf-8")`. -/
def utf8EncodeChar (c : Nat) : Bytes :=
  if c < 0x80 then [c]
  else if c < 0x800 then [0xC0 + c / 0x40, 0x80 + c % 0x40]
  else if c < 0x10000 then [0xE0 + c / 0x1000, 0x80 + c / 0x40 % 0x40, 0x80 + c % 0x40]
  else [0xF0 + c / 0x40000, 0x80 + c / 0x1000 % 0x40, 0x80 + c / 0x40 % 0x40, 0x80 + c % 0x40]

/-- `str.encode("utf-8")`. -/
def utf8Encode (cs : List Nat) : Bytes := (cs.map utf8EncodeChar).flatten

/-- A UTF-8 continuation byte. -/
def contByte (b : Nat) : Bool := 0x80 ≤ b && b < 0xC0

/-- Valid range of the second byte of a multi-byte sequence with lead
byte `b0` (the ranges that exclude overlong encodings, surrogates and
code points above U+10FFFF, as CPython's decoder enforces). -/
def utf8Second (b0 c : Nat) : Bool :=
  if b0 = 0xE0 then 0xA0 ≤ c && c < 0xC0
  else if b0 = 0xED then 0x80 ≤ c && c < 0xA0
  else if b0 = 0xF0 then 0x90 ≤ c && c < 0xC0
  else if b0 = 0xF4 then 0x80 ≤ c && c < 0x90
  else contByte c

/-- `bytes.decode("utf-8", errors="replace")`: each maximal subpart of an
ill-formed subsequence becomes one U+FFFD. -/
def utf8DecodeReplace : Bytes → List Nat
  | [] => []
  | b :: r =>
    if b < 0x80 then b :: utf8DecodeReplace r
    else if b < 0xC2 then 0xFFFD :: utf8DecodeReplace r
    else if b < 0xE0 then
      match r with
      | [] => [0xFFFD]
      | c :: r2 =>
        if contByte c then ((b - 0xC0) * 0x40 + (c - 0x80)) :: utf8DecodeReplace r2
        else 0xFFFD :: utf8DecodeReplace (c :: r2)
    else if b < 0xF0 then
      match r with
      | [] => [0xFFFD]
      | c :: r2 =>
        if utf8Second b c then
          match r2 with
          | [] => [0xFFFD]
          | d :: r3 =>
            if contByte d then
              ((b - 0xE0) * 0x1000 + (c - 0x80) * 0x40 + (d - 0x80)) :: utf8DecodeReplace r3
            else 0xFFFD :: utf8DecodeReplace (d :: r3)
        else 0xFFFD :: utf8DecodeReplace (c :: r2)
    else if b < 0xF5 then
      match r with
      | [] => [0xFFFD]
      | c :: r2 =>
        if utf8Second b c then
          match r2 with
          | [] => [0xFFFD]
          | d :: r3 =>
            if contByte d then
              match r3 with
              | [] => [0xFFFD]
              | e :: r4 =>
                if contByte e then
                  ((b - 0xF0) * 0x40000 + (c - 0x80) * 0x1000 + (d - 0x80) * 0x40 + (e - 0x80))
                    :: utf8DecodeReplace r4
                else 0xFFFD :: utf8DecodeReplace (e :: r4)
            else 0xFFFD :: utf8DecodeReplace (d :: r3)
        else 0xFFFD :: utf8DecodeReplace (c :: r2)
    else 0xFFFD :: utf8DecodeReplace r

/-! ## Lua 5.4 byte-level readers (`LuacParser.read_*_with_raw`)

`parse` always runs with `_record_raw_data = True`, so the `*_with_raw`
variants are the ones embedded.  Each reader maps a buffer to
`(value, raw, rest)` where `raw` is the span of consumed bytes. -/

/-- `read_byte_with_raw`: `struct.unpack('B', self.file.read(1))`. -/
def readByteRaw : Bytes → Except PErr (Nat × Bytes × Bytes)
  | [] => .error .truncated
  | b :: r => .ok (b, [b], r)

/-- The overflow guard of `read_size`: `1 << (8 * 8 - 7)`. -/
def sizeLimit : Nat := 1 <<< 57

/-- Loop of `read_size_with_raw`: big-endian 7-bit groups, the final
group marked by a set top bit; the accumulated prefix is checked against
`sizeLimit` after each byte is read, before it is incorporated. -/
def readSizeAux : Bytes → Nat → Except PErr (Nat × Bytes × Bytes)
  | [], _ => .error .truncated
  | b :: r, x =>
    if sizeLimit ≤ x then .error .overflow
    else
      let x2 := x * 0x80 + (b &&& 0x7F)
      if b &&& 0x80 ≠ 0 then .ok (x2, [b], r)
      else
        match readSizeAux r x2 with
        | .ok (v, raw, rest) => .ok (v, b :: raw, rest)
        | .error e => .error e

/-- `read_size_with_raw` (also the semantics of `read_size` / `read_int`). -/
def readSizeRaw (s : Bytes) : Except PErr (Nat × Bytes × Bytes) :=
  readSizeAux s 0

/-- Little-endian value of a byte list. -/
def leNat (l : Bytes) : Nat := l.foldr (fun b acc => b + 0x100 * acc) 0

/-- Reinterpret an unsigned 64-bit value as signed (`struct.unpack('<q', ...)`). -/
def toSigned64 (u : Nat) : Int :=
  if u < 2 ^ 63 then (u : Int) else (u : Int) - 2 ^ 64

/-- `read_integer_with_raw`: 8 bytes, little-endian signed. -/
def readIntegerRaw (s : Bytes) : Except PErr (Int × Bytes × Bytes) :=
  let raw := s.take 8
  if raw.length < 8 then .error .truncated
  else .ok (toSigned64 (leNat raw), raw, s.drop 8)

/-- `read_number_with_raw`: 8 bytes, the `float` kept as its bit pattern. -/
def readNumberRaw (s : Bytes) : Except PErr (Nat × Bytes × Bytes) :=
  let raw := s.take 8
  if raw.length < 8 then .error .truncated
  else .ok (leNat raw, raw, s.drop 8)

/-- `read_string_with_raw`: varint size, `0` meaning `None`; otherwise
`size - 1` content bytes read with `file.read` (which silently returns
fewer bytes at end of file) and decoded as UTF-8 with replacement. -/
def readStringRaw (s : Bytes) : Except PErr (Option (List Nat) × Bytes × Bytes) :=
  match readSizeRaw s with
  | .error e => .error e
  | .ok (size, sraw, r) =>
    if size = 0 then .ok (none, sraw, r)
    else
      let data := r.take (size - 1)
      .ok (some (utf8DecodeReplace data), sraw ++ data, r.drop (size - 1))

/-! ## Data model (`Upvalue`, `LocVar`, `AbsLineInfo`, `Proto`)

The Python `Proto` dataclass carries a dict `ori` of captured raw byte
spans; here it is the structure `Ori`.  The recursive `protos` field makes
`Proto` a mutual inductive with its own list type `ProtoList`. -/

structure Upvalue where
  instack : Nat
  idx : Nat
  kind : Nat
  ori : Bytes
deriving DecidableEq, Repr

structure LocVar where
  varname : Option (List Nat)
  startpc : Nat
  endpc : Nat
  ori : Bytes
deriving DecidableEq, Repr

structure AbsLineInfo where
  pc : Nat
  line : Nat
  ori : Bytes
deriving DecidableEq, Repr

/-- A decoded constant: the Python values `None`, `False`/`True`, `float`
(kept as its bit pattern), `int`, `str` that `read_constants` appends. -/
inductive LuaVal where
  | none
  | bool (b : Bool)
  | flt (bits : Nat)
  | int (v : Int)
  | str (chars : List Nat)
deriving DecidableEq, Repr

/-- The `Proto.ori` dict of captured raw spans. -/
structure Ori where
  source : Bytes
  linedefined : Bytes
  lastlinedefined : Bytes
  numparams : Bytes
  is_vararg : Bytes
  maxstacksize : Bytes
  code : Bytes
  constants : Bytes
  upvalues : Bytes
  protos : Bytes
  lineinfo : Bytes
  abslineinfo : Bytes
  locvars : Bytes
  upvalue_names : Bytes
deriving DecidableEq, Repr

/-- The non-recursive fields of a `Proto`. -/
structure ProtoData where
  source : List Nat
  linedefined : Nat
  lastlinedefined : Nat
  numparams : Nat
  is_vararg : Nat
  maxstacksize : Nat
  code : List Nat
  constants : List LuaVal
  upvalues : List Upvalue
  lineinfo : List Nat
  abslineinfo : List AbsLineInfo
  locvars : List LocVar
  upvalue_names : List (Option (List Nat))
  ori : Ori
deriving DecidableEq, Repr

mutual
inductive Proto where
  | mk (data : ProtoData) (protos : ProtoList)
deriving DecidableEq, Repr
inductive ProtoList where
  | nil
  | cons (p : Proto) (ps : ProtoList)
deriving DecidableEq, Repr
end

def Proto.data : Proto → ProtoData
  | .mk d _ => d

def Proto.protos : Proto → ProtoList
  | .mk _ ps => ps

def ProtoList.length : ProtoList → Nat
  | .nil => 0
  | .cons _ ps => ps.length + 1

def ProtoList.ofList : List Proto → ProtoList
  | [] => .nil
  | p :: ps => .cons p (ProtoList.ofList ps)

/-! ## Group readers (`read_code`, `read_constants`, `read_upvalues`,
`read_debug`, `read_protos`)

Each Python `for i in range(n)` loop appending decoded elements is the
generic `readListN`; an element reader returns `((value, raw), rest)`. -/

/-- `n` repetitions of an element reader, in input order. -/
def readListN (rd : Bytes → Except PErr (α × Bytes)) : Nat → Bytes → Except PErr (List α × Bytes)
  | 0, s => .ok ([], s)
  | n + 1, s => do
    let (x, s) ← rd s
    let (xs, s) ← readListN rd n s
    .ok (x :: xs, s)

/-- Concatenated raw spans of a decoded element list. -/
def rawsOf (xs : List (α × Bytes)) : Bytes := (xs.map Prod.snd).flatten

/-- One instruction of `read_code`: `struct.unpack('<I', self.file.read(4))`. -/
def readInstElem (s : Bytes) : Except PErr ((Nat × Bytes) × Bytes) :=
  let raw := s.take 4
  if raw.length < 4 then .error .truncated
  else .ok ((leNat raw, raw), s.drop 4)

/-- Internal type tags of `LuaType` used by the constant codec. -/
def VNIL : Nat := 0
def VFALSE : Nat := 17
def VTRUE : Nat := 33
def VNUMFLT : Nat := 19
def VNUMINT : Nat := 35
def VSHRSTR : Nat := 20
def VLNGSTR : Nat := 36

/-- One constant of `read_constants`: tag byte, then the tag-directed
payload, with the fallback branches on `base_type`/`variant` nibbles. -/
def readConstElem (s : Bytes) : Except PErr ((LuaVal × Bytes) × Bytes) := do
  let (t, tRaw, s) ← readByteRaw s
  let baseType := t &&& 0x0F
  let variant := (t >>> 4) &&& 0x0F
  if t = VNIL ∨ baseType = 0 then
    .ok ((.none, tRaw), s)
  else if t = VFALSE then
    .ok ((.bool false, tRaw), s)
  else if t = VTRUE then
    .ok ((.bool true, tRaw), s)
  else if t = VNUMFLT then do
    let (bits, vRaw, s) ← readNumberRaw s
    .ok ((.flt bits, tRaw ++ vRaw), s)
  else if t = VNUMINT then do
    let (v, vRaw, s) ← readIntegerRaw s
    .ok ((.int v, tRaw ++ vRaw), s)
  else if t = VSHRSTR ∨ t = VLNGSTR then do
    let (v, vRaw, s) ← readStringRaw s
    .ok (((match v with | Option.none => .none | some cs => .str cs), tRaw ++ vRaw), s)
  else if baseType = 1 then
    .ok ((.bool (variant ≠ 0), tRaw), s)
  else if baseType = 3 then
    if variant = 0 then do
      let (bits, vRaw, s) ← readNumberRaw s
      .ok ((.flt bits, tRaw ++ vRaw), s)
    else do
      let (v, vRaw, s) ← readIntegerRaw s
      .ok ((.int v, tRaw ++ vRaw), s)
  else if baseType = 4 then do
    let (v, vRaw, s) ← readStringRaw s
    .ok (((match v with | Option.none => .none | some cs => .str cs), tRaw ++ vRaw), s)
  else
    .error (.unknownConstTag t)

/-- One upvalue of `read_upvalues`: three bytes. -/
def readUpvalueElem (s : Bytes) : Except PErr ((Upvalue × Bytes) × Bytes) := do
  let (instack, r1, s) ← readByteRaw s
  let (idx, r2, s) ← readByteRaw s
  let (kind, r3, s) ← readByteRaw s
  let raw := r1 ++ r2 ++ r3
  .ok ((⟨instack, idx, kind, raw⟩, raw), s)

/-- One line-info entry of `read_debug`: one byte. -/
def readLineElem (s : Bytes) : Except PErr ((Nat × Bytes) × Bytes) := do
  let (line, raw, s) ← readByteRaw s
  .ok ((line, raw), s)

/-- One absolute-line entry of `read_debug`: two varints. -/
def readAbsLineElem (s : Bytes) : Except PErr ((AbsLineInfo × Bytes) × Bytes) := do
  let (pc, r1, s) ← readSizeRaw s
  let (line, r2, s) ← readSizeRaw s
  let raw := r1 ++ r2
  .ok ((⟨pc, line, raw⟩, raw), s)

/-- One local variable of `read_debug`: string plus two varints. -/
def readLocVarElem (s : Bytes) : Except PErr ((LocVar × Bytes) × Bytes) := do
  let (varname, r1, s) ← readStringRaw s
  let (startpc, r2, s) ← readSizeRaw s
  let (endpc, r3, s) ← readSizeRaw s
  let raw := r1 ++ r2 ++ r3
  .ok ((⟨varname, startpc, endpc, raw⟩, raw), s)

/-- One upvalue name of `read_debug`: a string. -/
def readUpvalNameElem (s : Bytes) : Except PErr ((Option (List Nat) × Bytes) × Bytes) := do
  let (name, raw, s) ← readStringRaw s
  .ok ((name, raw), s)

/-- A count-prefixed group: varint count, then that many elements.
Returns the decoded elements and the whole captured span. -/
def readGroup (rd : Bytes → Except PErr ((α × Bytes) × Bytes)) (s : Bytes) :
    Except PErr ((List α × Bytes) × Bytes) := do
  let (n, nRaw, s) ← readSizeRaw s
  let (xs, s) ← readListN rd n s
  .ok ((xs.map Prod.fst, nRaw ++ rawsOf xs), s)

/-- `read_debug`: the four debug subgroups; `debug_raw` is their whole
concatenated span, afterwards split into length quarters for the four
`ori` entries (the "simplified handling" of the source). -/
def readDebugGroup (s : Bytes) :
    Except PErr ((List Nat × List AbsLineInfo × List LocVar × List (Option (List Nat))) ×
      Bytes × Bytes) := do
  let ((lineinfo, r1), s) ← readGroup readLineElem s
  let ((abslineinfo, r2), s) ← readGroup readAbsLineElem s
  let ((locvars, r3), s) ← readGroup readLocVarElem s
  let ((upvalueNames, r4), s) ← readGroup readUpvalNameElem s
  .ok ((lineinfo, abslineinfo, locvars, upvalueNames), r1 ++ r2 ++ r3 ++ r4, s)

/-- The length-quarter split `read_debug` applies to `debug_raw` when
storing it into `ori`. -/
def debugQuarters (raw : Bytes) : Bytes × Bytes × Bytes × Bytes :=
  let n := raw.length
  (raw.take (n / 4),
   (raw.drop (n / 4)).take (n / 2 - n / 4),
   (raw.drop (n / 2)).take (3 * n / 4 - n / 2),
   raw.drop (3 * n / 4))

/-- `read_proto`, with a fuel parameter bounding the recursion depth.
Every recursive call consumes at least one byte of input (the source
string's size varint), so fuel `buffer length + 1` never runs out; an
exhausted-fuel result is reported as `truncated`. -/
def readProtoF : Nat → List Nat → Bytes → Except PErr (Proto × Bytes)
  | 0, _, _ => .error .truncated
  | fuel + 1, parentSource, s => do
    let (sourceOpt, sourceRaw, s) ← readStringRaw s
    let source := match sourceOpt with
      | Option.none => parentSource
      | some v => v
    let (linedefined, ldRaw, s) ← readSizeRaw s
    let (lastlinedefined, lldRaw, s) ← readSizeRaw s
    let (numparams, npRaw, s) ← readByteRaw s
    let (isVararg, vaRaw, s) ← readByteRaw s
    let (maxstacksize, mssRaw, s) ← readByteRaw s
    let ((code, codeRaw), s) ← readGroup readInstElem s
    let ((constants, constRaw), s) ← readGroup readConstElem s
    let ((upvalues, upvRaw), s) ← readGroup readUpvalueElem s
    let (nProtos, protosRaw, s) ← readSizeRaw s
    let (subs, s) ← readListN (fun s2 => readProtoF fuel source s2) nProtos s
    let (dbg, dbgRaw, s) ← readDebugGroup s
    let (lineinfo, abslineinfo, locvars, upvalueNames) := dbg
    let (q1, q2, q3, q4) := debugQuarters dbgRaw
    .ok (Proto.mk
      { source := source
        linedefined := linedefined
        lastlinedefined := lastlinedefined
        numparams := numparams
        is_vararg := isVararg
        maxstacksize := maxstacksize
        code := code
        constants := constants
        upvalues := upvalues
        lineinfo := lineinfo
        abslineinfo := abslineinfo
        locvars := locvars
        upvalue_names := upvalueNames
        ori :=
          { source := sourceRaw
            linedefined := ldRaw
            lastlinedefined := lldRaw
            numparams := npRaw
            is_vararg := vaRaw
            maxstacksize := mssRaw
            code := codeRaw
            constants := constRaw
            upvalues := upvRaw
            protos := protosRaw
            lineinfo := q1
            abslineinfo := q2
            locvars := q3
            upvalue_names := q4 } }
      (ProtoList.ofList subs), s)

/-! ## Header (`check_header`) and top-level `parse` -/

def LUA_SIGNATURE : Bytes := [0x1B, 0x4C, 0x75, 0x61]
def LUAC_VERSION : Nat := 0x54
def LUAC_FORMAT : Nat := 0
def LUAC_DATA : Bytes := [0x19, 0x93, 0x0D, 0x0A, 0x1A, 0x0A]
def LUAC_INT : Nat := 0x5678
/-- IEEE-754 bit pattern of `LUAC_NUM = 370.5`. -/
def LUAC_NUM_BITS : Nat := 0x4077280000000000

/-- What `check_header` reads.  Only the signature and version are
validated; everything else is read (and printed) without any check. -/
structure HeaderInfo where
  formatByte : Nat
  luacData : Bytes
  instSize : Nat
  intSize : Nat
  numSize : Nat
  testInt : Int
  testIntRaw : Bytes
  testNum : Nat
  testNumRaw : Bytes
deriving DecidableEq, Repr

/-- `check_header`. -/
def checkHeader (s : Bytes) : Except PErr (HeaderInfo × Bytes) := do
  let sig := s.take 4
  if sig ≠ LUA_SIGNATURE then throw .badSignature
  let s := s.drop 4
  let (version, _, s) ← readByteRaw s
  if version ≠ LUAC_VERSION then throw .badVersion
  let (formatByte, _, s) ← readByteRaw s
  let luacData := s.take 6
  let s := s.drop 6
  let (instSize, _, s) ← readByteRaw s
  let (intSize, _, s) ← readByteRaw s
  let (numSize, _, s) ← readByteRaw s
  let (testInt, tiRaw, s) ← readIntegerRaw s
  let (testNum, tnRaw, s) ← readNumberRaw s
  .ok ({ formatByte := formatByte, luacData := luacData, instSize := instSize,
         intSize := intSize, numSize := numSize,
         testInt := testInt, testIntRaw := tiRaw,
         testNum := testNum, testNumRaw := tnRaw }, s)

/-- `LuacParser.parse`: header, root upvalue-count byte (read and shown,
not otherwise used), then the main prototype with parent source `""`.
Trailing bytes after the main prototype are not inspected. -/
def parseLuac (b : Bytes) : Except PErr (HeaderInfo × Nat × Proto × Bytes) := do
  let (h, s) ← checkHeader b
  let (upvalCount, _, s) ← readByteRaw s
  let (mainProto, s) ← readProtoF (b.length + 1) [] s
  .ok (h, upvalCount, mainProto, s)

/-! ## Lua 5.4 writer (`_write_luac_file`, `_write_header`, `_write_size`,
`_write_string`, `_write_proto`, `_write_constants`, `_write_upvalues`,
`_write_protos`, `_write_debug`) -/

/-- `struct.pack` little-endian of the given byte width. -/
def natToLE : Nat → Nat → Bytes
  | 0, _ => []
  | w + 1, v => v % 0x100 :: natToLE w (v / 0x100)

/-- `struct.pack('<q', v)`: two's-complement 64-bit little-endian. -/
def int64LE (v : Int) : Bytes := natToLE 8 (v % (2 ^ 64 : Int)).toNat

/-- The low 7-bit digit list (least significant first) that the
`while value > 0` loop of `_write_size` builds. -/
def writeSizeDigits : Nat → Nat → List Nat
  | 0, _ => []
  | fuel + 1, v => if v = 0 then [] else (v &&& 0x7F) :: writeSizeDigits fuel (v >>> 7)

/-- Set the top bit of the last byte (the `i == len(bytes_list) - 1`
branch of `_write_size`). -/
def setLastHighBit : Bytes → Bytes
  | [] => []
  | [b] => [b ||| 0x80]
  | b :: bs => b :: setLastHighBit bs

/-- `_write_size`: `0` is the single byte `0x80`; otherwise the 7-bit
digits most-significant first with the top bit set on the final byte. -/
def writeSize (v : Nat) : Bytes :=
  if v = 0 then [0x80] else setLastHighBit (writeSizeDigits v v).reverse

/-- `_write_string`: `None` is size `0`; otherwise size is the UTF-8
encoding's length plus one for the terminator convention. -/
def writeString : Option (List Nat) → Bytes
  | Option.none => writeSize 0
  | some s =>
    let data := utf8Encode s
    writeSize (data.length + 1) ++ data

/-- `_write_header`: entirely fixed bytes, independent of what the parsed
header contained. -/
def writeHeader : Bytes :=
  LUA_SIGNATURE ++ [LUAC_VERSION, LUAC_FORMAT] ++ LUAC_DATA ++ [4, 8, 8] ++
    natToLE 8 LUAC_INT ++ natToLE 8 LUAC_NUM_BITS

/-- One constant of `_write_constants`: the tag byte is chosen from the
decoded value (a string gets `VSHRSTR` exactly when its character length
is at most 40, else `VLNGSTR`), then the payload. -/
def writeConstElem : LuaVal → Bytes
  | .none => [VNIL]
  | .bool false => [VFALSE]
  | .bool true => [VTRUE]
  | .flt bits => VNUMFLT :: natToLE 8 bits
  | .int v => VNUMINT :: int64LE v
  | .str s => (if s.length ≤ 40 then VSHRSTR else VLNGSTR) :: writeString (some s)

/-- `_write_constants`. -/
def writeConstants (cs : List LuaVal) : Bytes :=
  writeSize cs.length ++ (cs.map writeConstElem).flatten

/-- `_write_upvalues`. -/
def writeUpvalues (us : List Upvalue) : Bytes :=
  writeSize us.length ++ (us.map (fun u => [u.instack, u.idx, u.kind])).flatten

/-- `_write_debug`: the four debug groups, re-derived from the decoded
values (each line-info entry is `struct.pack('B', line)`, i.e. the byte
itself). -/
def writeDebug (lineinfo : List Nat) (absl : List AbsLineInfo) (locv : List LocVar)
    (uvn : List (Option (List Nat))) : Bytes :=
  writeSize lineinfo.length ++ lineinfo ++
  writeSize absl.length ++ (absl.map (fun a => writeSize a.pc ++ writeSize a.line)).flatten ++
  writeSize locv.length ++
    (locv.map (fun lv => writeString lv.varname ++ writeSize lv.startpc ++ writeSize lv.endpc)).flatten ++
  writeSize uvn.length ++ (uvn.map writeString).flatten

/-- The source-name logic of `_write_proto`: the main prototype's source
is always re-written from the decoded string; a child prototype whose
captured source span is at most one byte (the absent-string encoding) is
written as `None`, otherwise from its decoded string.  (`ori` always
exists on a parsed `Proto`, so the no-`ori` fallback branch is dead.) -/
def writeProtoSource (isMain : Bool) (source : List Nat) (oriSource : Bytes) : Bytes :=
  if isMain then writeString (some source)
  else if oriSource.length ≤ 1 then writeString Option.none
  else writeString (some source)

mutual
/-- `_write_proto`: groups in decode order; the instruction-stream group
is emitted as the captured (possibly cipher-transformed) `ori['code']`
span verbatim; every other group is re-derived from decoded values. -/
def writeProto (isMain : Bool) : Proto → Bytes
  | .mk d ps =>
    writeProtoSource isMain d.source d.ori.source ++
    writeSize d.linedefined ++ writeSize d.lastlinedefined ++
    [d.numparams, d.is_vararg, d.maxstacksize] ++
    d.ori.code ++
    writeConstants d.constants ++
    writeUpvalues d.upvalues ++
    writeSize ps.length ++
    writeProtoList ps ++
    writeDebug d.lineinfo d.abslineinfo d.locvars d.upvalue_names
/-- `_write_protos` without its leading count varint. -/
def writeProtoList : ProtoList → Bytes
  | .nil => []
  | .cons p ps => writeProto false p ++ writeProtoList ps
end

/-- `_write_luac_file`: fixed header, then `len(main_proto.upvalues)` as
the root upvalue-count byte, then the main prototype. -/
def writeLuacFile (mainProto : Proto) : Bytes :=
  writeHeader ++ [mainProto.data.upvalues.length] ++ writeProto true mainProto

/-! ## Instruction-stream cipher (`set_encryption_key`,
`encrypt_code_data`, `decrypt_code_data`, `encrypt_proto_code`,
`decrypt_proto_code`) -/

/-- The byte-wise transform of `encrypt_code_data`'s loops: byte `i` is
XORed with key byte `i mod len(key)`.  (The source iterates in 4-byte
instruction groups with an inner `break` at the end of data, which visits
exactly the indices `0, 1, ..., len - 1` in order; the special first-byte
adjustment is commented out in the source.) -/
def xorKeyStream (key data : Bytes) : Bytes :=
  (List.range data.length).map (fun i => data.getD i 0 ^^^ key.getD (i % key.length) 0)

/-- `encrypt_code_data`: raises when no key is set. -/
def encryptCodeData (key data : Bytes) : Except PErr Bytes :=
  if key.length = 0 then .error .missingKey
  else .ok (xorKeyStream key data)

/-- `decrypt_code_data` (verbatim duplicate of the encryption transform). -/
def decryptCodeData (key data : Bytes) : Except PErr Bytes :=
  if key.length = 0 then .error .missingKey
  else .ok (xorKeyStream key data)

/-- The size-prefix scan of `encrypt_proto_code`/`decrypt_proto_code`:
consume bytes up to and including the first one with the top bit set
(all of them if none has it). -/
def sizePrefixSplit : Bytes → Bytes × Bytes
  | [] => ([], [])
  | b :: r =>
    if b &&& 0x80 ≠ 0 then ([b], r)
    else
      let (szb, rest) := sizePrefixSplit r
      (b :: szb, rest)

/-- Truthiness of `self.encryption_key` (`None` and `b''` are falsy). -/
def keyTruthy : Option Bytes → Bool
  | Option.none => false
  | some k => !k.isEmpty

mutual
/-- `encrypt_proto_code`: if `encrypt_mode` is unset or the key is falsy,
return at once leaving the whole tree unchanged; otherwise split the
captured `ori['code']` span into its size prefix and payload, XOR the
payload (under the guard the key is non-empty, so `encrypt_code_data`
cannot raise), and recurse into the children. -/
def encryptProtoCode (key : Option Bytes) (mode : Bool) : Proto → Proto
  | .mk d ps =>
    if mode && keyTruthy key then
      let c2 := (sizePrefixSplit d.ori.code).1 ++
        xorKeyStream (key.getD []) (sizePrefixSplit d.ori.code).2
      Proto.mk { d with ori := { d.ori with code := c2 } } (encryptProtoCodeList key mode ps)
    else Proto.mk d ps
def encryptProtoCodeList (key : Option Bytes) (mode : Bool) : ProtoList → ProtoList
  | .nil => .nil
  | .cons p ps => .cons (encryptProtoCode key mode p) (encryptProtoCodeList key mode ps)
end

mutual
/-- `decrypt_proto_code` (verbatim duplicate of `encrypt_proto_code` with
the decryption transform, which is itself a duplicate). -/
def decryptProtoCode (key : Option Bytes) (mode : Bool) : Proto → Proto
  | .mk d ps =>
    if mode && keyTruthy key then
      let c2 := (sizePrefixSplit d.ori.code).1 ++
        xorKeyStream (key.getD []) (sizePrefixSplit d.ori.code).2
      Proto.mk { d with ori := { d.ori with code := c2 } } (decryptProtoCodeList key mode ps)
    else Proto.mk d ps
def decryptProtoCodeList (key : Option Bytes) (mode : Bool) : ProtoList → ProtoList
  | .nil => .nil
  | .cons p ps => .cons (decryptProtoCode key mode p) (decryptProtoCodeList key mode ps)
end

/-! ## Instruction decoder (`decode_instruction`, `OPCODE_INFO`) -/

inductive OpMode where
  | iABC | iABx | iAsBx | iAx | isJ
deriving DecidableEq, Repr

/-- The `OPCODE_INFO` table: name and addressing mode for opcodes 0..82. -/
def OPCODE_INFO : Nat → Option (String × OpMode)
  | 0 => some ("MOVE", .iABC)
  | 1 => some ("LOADI", .iAsBx)
  | 2 => some ("LOADF", .iAsBx)
  | 3 => some ("LOADK", .iABx)
  | 4 => some ("LOADKX", .iABx)
  | 5 => some ("LOADFALSE", .iABC)
  | 6 => some ("LFALSESKIP", .iABC)
  | 7 => some ("LOADTRUE", .iABC)
  | 8 => some ("LOADNIL", .iABC)
  | 9 => some ("GETUPVAL", .iABC)
  | 10 => some ("SETUPVAL", .iABC)
  | 11 => some ("GETTABUP", .iABC)
  | 12 => some ("GETTABLE", .iABC)
  | 13 => some ("GETI", .iABC)
  | 14 => some ("GETFIELD", .iABC)
  | 15 => some ("SETTABUP", .iABC)
  | 16 => some ("SETTABLE", .iABC)
  | 17 => some ("SETI", .iABC)
  | 18 => some ("SETFIELD", .iABC)
  | 19 => some ("NEWTABLE", .iABC)
  | 20 => some ("SELF", .iABC)
  | 21 => some ("ADDI", .iABC)
  | 22 => some ("ADDK", .iABC)
  | 23 => some ("SUBK", .iABC)
  | 24 => some ("MULK", .iABC)
  | 25 => some ("MODK", .iABC)
  | 26 => some ("POWK", .iABC)
  | 27 => some ("DIVK", .iABC)
  | 28 => some ("IDIVK", .iABC)
  | 29 => some ("BANDK", .iABC)
  | 30 => some ("BORK", .iABC)
  | 31 => some ("BXORK", .iABC)
  | 32 => some ("SHRI", .iABC)
  | 33 => some ("SHLI", .iABC)
  | 34 => some ("ADD", .iABC)
  | 35 => some ("SUB", .iABC)
  | 36 => some ("MUL", .iABC)
  | 37 => some ("MOD", .iABC)
  | 38 => some ("POW", .iABC)
  | 39 => some ("DIV", .iABC)
  | 40 => some ("IDIV", .iABC)
  | 41 => some ("BAND", .iABC)
  | 42 => some ("BOR", .iABC)
  | 43 => some ("BXOR", .iABC)
  | 44 => some ("SHL", .iABC)
  | 45 => some ("SHR", .iABC)
  | 46 => some ("MMBIN", .iABC)
  | 47 => some ("MMBINI", .iABC)
  | 48 => some ("MMBINK", .iABC)
  | 49 => some ("UNM", .iABC)
  | 50 => some ("BNOT", .iABC)
  | 51 => some ("NOT", .iABC)
  | 52 => some ("LEN", .iABC)
  | 53 => some ("CONCAT", .iABC)
  | 54 => some ("CLOSE", .iABC)
  | 55 => some ("TBC", .iABC)
  | 56 => some ("JMP", .isJ)
  | 57 => some ("EQ", .iABC)
  | 58 => some ("LT", .iABC)
  | 59 => some ("LE", .iABC)
  | 60 => some ("EQK", .iABC)
  | 61 => some ("EQI", .iABC)
  | 62 => some ("LTI", .iABC)
  | 63 => some ("LEI", .iABC)
  | 64 => some ("GTI", .iABC)
  | 65 => some ("GEI", .iABC)
  | 66 => some ("TEST", .iABC)
  | 67 => some ("TESTSET", .iABC)
  | 68 => some ("CALL", .iABC)
  | 69 => some ("TAILCALL", .iABC)
  | 70 => some ("RETURN", .iABC)
  | 71 => some ("RETURN0", .iABC)
  | 72 => some ("RETURN1", .iABC)
  | 73 => some ("FORLOOP", .iAsBx)
  | 74 => some ("FORPREP", .iAsBx)
  | 75 => some ("TFORPREP", .iAsBx)
  | 76 => some ("TFORCALL", .iABC)
  | 77 => some ("TFORLOOP", .iAsBx)
  | 78 => some ("SETLIST", .iABC)
  | 79 => some ("CLOSURE", .iABx)
  | 80 => some ("VARARG", .iABC)
  | 81 => some ("VARARGPREP", .iABC)
  | 82 => some ("EXTRAARG", .iAx)
  | _ => Option.none

/-- The mode-dependent field entries the decoded-instruction dict gets
(`noneF` when the opcode is not in `OPCODE_INFO`). -/
inductive DecFields where
  | noneF
  | abc (A B k C : Nat)
  | abx (A Bx : Nat)
  | asbx (A : Nat) (sBx : Int)
  | ax (Ax : Nat)
  | sj (sJ : Int)
deriving DecidableEq, Repr

/-- The result dict of `decode_instruction`. -/
structure DecodedInst where
  raw : Nat
  opcode : Nat
  name : String
  fields : DecFields
deriving DecidableEq, Repr

/-- `decode_instruction`: total over all 32-bit words; the opcode is the
word's low 7 bits; an opcode outside `OPCODE_INFO` keeps the default
`'UNKNOWN'` name and no field entries. -/
def decodeInstruction (inst : Nat) : DecodedInst :=
  let opcode := inst &&& 0x7F
  match OPCODE_INFO opcode with
  | Option.none => { raw := inst, opcode := opcode, name := "UNKNOWN", fields := .noneF }
  | some (n, mode) =>
    { raw := inst, opcode := opcode, name := n,
      fields :=
        match mode with
        | .iABC =>
          .abc ((inst >>> 7) &&& 0xFF) ((inst >>> 16) &&& 0xFF)
            ((inst >>> 15) &&& 0x1) ((inst >>> 24) &&& 0xFF)
        | .iABx => .abx ((inst >>> 7) &&& 0xFF) ((inst >>> 15) &&& 0x1FFFF)
        | .iAsBx =>
          .asbx ((inst >>> 7) &&& 0xFF) ((((inst >>> 15) &&& 0x1FFFF : Nat) : Int) - 0xFFFF)
        | .iAx => .ax ((inst >>> 7) &&& 0x1FFFFFF)
        | .isJ => .sj ((((inst >>> 7) &&& 0x1FFFFFF : Nat) : Int) - 0xFFFFFF) }

/-! ## Opcode-correspondence analysis (`compare_opcodes`,
`_extract_all_instructions`, `_analyze_opcode_mapping`) -/

mutual
/-- `_extract_all_instructions`: preorder flattening, a node's own
instructions then each child's, recursively. -/
def extractAllInstructions : Proto → List Nat
  | .mk d ps => d.code ++ extractAllInstructionsList ps
def extractAllInstructionsList : ProtoList → List Nat
  | .nil => []
  | .cons p ps => extractAllInstructions p ++ extractAllInstructionsList ps
end

/-- Loop of `_analyze_opcode_mapping` over the zipped instruction pairs:
the mapping dict records the first occurrence of each standard opcode;
a later conflicting pair only produces a printed warning, modelled as an
appended `(std, first-seen, conflicting)` inconsistency entry. -/
def analyzeAux : List (Nat × Nat) → List (Nat × Nat) → List (Nat × Nat × Nat) →
    List (Nat × Nat) × List (Nat × Nat × Nat)
  | [], mapping, incons => (mapping, incons)
  | (stdInst, shufInst) :: rest, mapping, incons =>
    let stdOp := (decodeInstruction stdInst).opcode
    let shufOp := (decodeInstruction shufInst).opcode
    match mapping.lookup stdOp with
    | some prev =>
      if prev ≠ shufOp then analyzeAux rest mapping (incons ++ [(stdOp, prev, shufOp)])
      else analyzeAux rest mapping incons
    | Option.none => analyzeAux rest (mapping ++ [(stdOp, shufOp)]) incons

/-- `_analyze_opcode_mapping`. -/
def analyzeOpcodeMapping (stdIs shufIs : List Nat) :
    List (Nat × Nat) × List (Nat × Nat × Nat) :=
  analyzeAux (stdIs.zip shufIs) [] []

/-- The core of `compare_opcodes` on two already-decoded trees: flatten
both, fail on a length mismatch (`ValueError`), otherwise analyze. -/
def compareOpcodes (std shuf : Proto) : Except PErr (List (Nat × Nat) × List (Nat × Nat × Nat)) :=
  let stdIs := extractAllInstructions std
  let shufIs := extractAllInstructions shuf
  if stdIs.length ≠ shufIs.length then .error .instrCountMismatch
  else .ok (analyzeOpcodeMapping stdIs shufIs)

/-! ## LuaJIT reader (`luajitparse.py`, `LuaJITParser`)

The cursor `(data, pos, size)` is modelled by the remaining byte list;
every bounds check `self.pos + n > self.size` is a length check. -/

def LUAJIT_SIGNATURE : Bytes := [0x1B, 0x4C, 0x4A]
def LUAJIT_VERSION : Nat := 1
def BCDUMP_F_STRIP : Nat := 0x02

/-- `LuaJITParser.read_byte`. -/
def ljReadByte : Bytes → Except PErr (Nat × Bytes)
  | [] => .error .truncated
  | b :: r => .ok (b, r)

/-- `LuaJITParser.read_uint16`. -/
def ljReadUint16 (s : Bytes) : Except PErr (Nat × Bytes) :=
  if s.length < 2 then .error .truncated else .ok (leNat (s.take 2), s.drop 2)

/-- `LuaJITParser.read_uint32`. -/
def ljReadUint32 (s : Bytes) : Except PErr (Nat × Bytes) :=
  if s.length < 4 then .error .truncated else .ok (leNat (s.take 4), s.drop 4)

/-- Loop of `read_uleb128`: LSB-first 7-bit groups while the continuation
bit is set; after consuming a continuation byte, a shift reaching 35
raises the overlong-encoding error. -/
def ljReadUleb128Aux : Bytes → Nat → Nat → Except PErr (Nat × Bytes)
  | [], _, _ => .error .truncated
  | b :: r, result, shift =>
    let result := result ||| ((b &&& 0x7F) <<< shift)
    if b &&& 0x80 = 0 then .ok (result, r)
    else if 35 ≤ shift + 7 then .error .overflow
    else ljReadUleb128Aux r result (shift + 7)

/-- `LuaJITParser.read_uleb128`. -/
def ljReadUleb128 (s : Bytes) : Except PErr (Nat × Bytes) :=
  ljReadUleb128Aux s 0 0

/-- Extension loop of `read_uleb128_33`: starts at shift 6 and, unlike
`read_uleb128`, stops silently (no error) once the shift reaches 32. -/
def ljUleb33Loop : Bytes → Nat → Nat → Except PErr (Nat × Bytes)
  | [], _, _ => .error .truncated
  | b :: r, lo, shift =>
    let lo := lo ||| ((b &&& 0x7F) <<< shift)
    if b &&& 0x80 = 0 then .ok (lo, r)
    else if 32 ≤ shift + 7 then .ok (lo, r)
    else ljUleb33Loop r lo (shift + 7)

/-- `read_uleb128_33`: the first byte's low bit flags a float; bits 1..6
seed `lo`; a first byte at or above `0x80` continues into `ljUleb33Loop`;
a float then reads `hi` as a further ULEB128. -/
def ljReadUleb12833 : Bytes → Except PErr ((Nat × Nat) × Bool × Bytes)
  | [] => .error .truncated
  | b0 :: r =>
    let isNum := b0 &&& 0x01 ≠ 0
    let lo := (b0 >>> 1) &&& 0x3F
    let loRes : Except PErr (Nat × Bytes) :=
      if 0x3F < b0 >>> 1 then ljUleb33Loop r lo 6 else .ok (lo, r)
    match loRes with
    | .error e => .error e
    | .ok (lo, r) =>
      if isNum then
        match ljReadUleb128 r with
        | .error e => .error e
        | .ok (hi, r) => .ok ((lo, hi), isNum, r)
      else .ok ((lo, 0), isNum, r)

/-- The string decode of `LuaJITParser.read_string`: strict UTF-8 with a
latin-1 fallback (latin-1 maps each byte to the equal code point).  A
byte list decodes strictly exactly when replacement decoding followed by
encoding reproduces it. -/
def ljDecodeStr (data : Bytes) : List Nat :=
  if utf8Encode (utf8DecodeReplace data) = data then utf8DecodeReplace data else data

/-- `LuaJITParser.read_string` (length supplied by the caller). -/
def ljReadString (len : Nat) (s : Bytes) : Except PErr (List Nat × Bytes) :=
  if s.length < len then .error .truncated
  else .ok (ljDecodeStr (s.take len), s.drop len)

/-- A table constant item (`read_table_item`). -/
inductive LJTabVal where
  | nil
  | bool (b : Bool)
  | int (v : Nat)
  | num (bits : Nat)
  | str (chars : List Nat)
deriving DecidableEq, Repr

/-- `read_table_item`: ULEB tag; `>= 5` is a string whose length is the
tag minus 5; `3` an integer, `4` a float from two ULEB halves, `2`/`1`
booleans, `0` nil.  (The final raise is unreachable for natural tags.) -/
def ljReadTableItem (s : Bytes) : Except PErr (LJTabVal × Bytes) := do
  let (itemType, s) ← ljReadUleb128 s
  if 5 ≤ itemType then do
    let (v, s) ← ljReadString (itemType - 5) s
    .ok (.str v, s)
  else if itemType = 3 then do
    let (v, s) ← ljReadUleb128 s
    .ok (.int v, s)
  else if itemType = 4 then do
    let (lo, s) ← ljReadUleb128 s
    let (hi, s) ← ljReadUleb128 s
    .ok (.num (lo ||| (hi <<< 32)), s)
  else if itemType = 2 then .ok (.bool true, s)
  else if itemType = 1 then .ok (.bool false, s)
  else if itemType = 0 then .ok (.nil, s)
  else .error (.unknownConstTag itemType)

structure LJTable where
  arrayItems : List LJTabVal
  hashItems : List (LJTabVal × LJTabVal)
deriving DecidableEq, Repr

/-- `read_table`. -/
def ljReadTable (s : Bytes) : Except PErr (LJTable × Bytes) := do
  let (arrayCount, s) ← ljReadUleb128 s
  let (hashCount, s) ← ljReadUleb128 s
  let (arr, s) ← readListN ljReadTableItem arrayCount s
  let (hash, s) ← readListN (fun s => do
      let (k, s) ← ljReadTableItem s
      let (v, s) ← ljReadTableItem s
      pure ((k, v), s)) hashCount s
  .ok ({ arrayItems := arr, hashItems := hash }, s)

/-- A GC constant (`constants_gc` entries). -/
inductive LJGCConst where
  | str (chars : List Nat)
  | tab (t : LJTable)
  | childRef
  | i64 (v : Int)
  | u64 (v : Nat)
  | complex (re im : Nat)
deriving DecidableEq, Repr

/-- Reinterpret an unsigned 32-bit value as signed. -/
def toSigned32 (u : Nat) : Int :=
  if u < 2 ^ 31 then (u : Int) else (u : Int) - 2 ^ 32

/-- One GC constant of `read_proto`. -/
def ljReadGCConst (s : Bytes) : Except PErr (LJGCConst × Bytes) := do
  let (constType, s) ← ljReadUleb128 s
  if 5 ≤ constType then do
    let (v, s) ← ljReadString (constType - 5) s
    .ok (.str v, s)
  else if constType = 1 then do
    let (t, s) ← ljReadTable s
    .ok (.tab t, s)
  else if constType = 0 then .ok (.childRef, s)
  else if constType = 2 then do
    let (lo, s) ← ljReadUleb128 s
    let (hi, s) ← ljReadUleb128 s
    .ok (.i64 (toSigned64 (lo ||| (hi <<< 32))), s)
  else if constType = 3 then do
    let (lo, s) ← ljReadUleb128 s
    let (hi, s) ← ljReadUleb128 s
    .ok (.u64 (lo ||| (hi <<< 32)), s)
  else if constType = 4 then do
    let (reLo, s) ← ljReadUleb128 s
    let (reHi, s) ← ljReadUleb128 s
    let (imLo, s) ← ljReadUleb128 s
    let (imHi, s) ← ljReadUleb128 s
    .ok (.complex (reLo ||| (reHi <<< 32)) (imLo ||| (imHi <<< 32)), s)
  else .error (.unknownConstTag constType)

/-- A numeric constant (`constants_num` entries): float kept as bits,
integer sign-extended from 32 bits. -/
inductive LJNumConst where
  | num (bits : Nat)
  | int (v : Int)
deriving DecidableEq, Repr

/-- One numeric constant of `read_proto`, via `read_uleb128_33`. -/
def ljReadNumConst (s : Bytes) : Except PErr (LJNumConst × Bytes) := do
  let (lohi, isNum, s) ← ljReadUleb12833 s
  let (lo, hi) := lohi
  if isNum then .ok (.num (lo ||| (hi <<< 32)), s)
  else .ok (.int (toSigned32 lo), s)

/-- A varnames entry: a named local or the `f"<type_{var_type}>"` marker
for the special loop-variable kinds. -/
inductive LJVarName where
  | named (chars : List Nat)
  | special (t : Nat)
deriving DecidableEq, Repr

/-- The trailing `while self.pos < self.size` varnames loop of
`read_proto`: exits silently at end of input or on a `VARNAME_END` byte;
entries at or above `VARNAME_MAX = 7` carry a name of length
`var_type - 7` (appended only when non-empty); the two scope ULEB128s
are read and discarded.  Fuel bounds the loop (each iteration consumes
at least the type byte). -/
def ljVarNamesLoop : Nat → Bytes → Except PErr (List LJVarName × Bytes)
  | 0, _ => .error .truncated
  | fuel + 1, s =>
    if s.isEmpty then .ok ([], s)
    else do
      let (varType, s) ← ljReadByte s
      if varType = 0 then .ok ([], s)
      else do
        let (entry, s) ←
          (if 7 ≤ varType then
            (if varType - 7 > 0 then do
              let (name, s) ← ljReadString (varType - 7) s
              pure (([LJVarName.named name] : List LJVarName), s)
            else pure (([] : List LJVarName), s))
          else pure (([LJVarName.special varType] : List LJVarName), s))
        let (_, s) ← ljReadUleb128 s
        let (_, s) ← ljReadUleb128 s
        let (more, s) ← ljVarNamesLoop fuel s
        .ok (entry ++ more, s)

/-- `luajitparse.Proto`. -/
structure LJProto where
  size : Nat := 0
  flags : Nat := 0
  numparams : Nat := 0
  framesize : Nat := 0
  numuv : Nat := 0
  numkgc : Nat := 0
  numkn : Nat := 0
  numbc : Nat := 0
  debuginfoSize : Nat := 0
  firstline : Nat := 0
  numline : Nat := 0
  bytecode : List Nat := []
  uvData : List Nat := []
  constantsGc : List LJGCConst := []
  constantsNum : List LJNumConst := []
  lineinfo : List Nat := []
  uvnames : List (List Nat) := []
  varnames : List LJVarName := []
deriving DecidableEq, Repr

/-- `LuaJITParser.read_proto` (the dump-level `flags` select whether the
debug sections exist).  A `size` of zero returns the all-default `Proto`. -/
def ljReadProto (dumpFlags : Nat) (s : Bytes) : Except PErr (LJProto × Bytes) := do
  let (size, s) ← ljReadUleb128 s
  if size = 0 then .ok ({ }, s)
  else do
    let (flags, s) ← ljReadByte s
    let (numparams, s) ← ljReadByte s
    let (framesize, s) ← ljReadByte s
    let (numuv, s) ← ljReadByte s
    let (numkgc, s) ← ljReadUleb128 s
    let (numkn, s) ← ljReadUleb128 s
    let (numbc, s) ← ljReadUleb128 s
    let (dbgHdr, s) ←
      (if dumpFlags &&& BCDUMP_F_STRIP = 0 then do
        let (dsz, s) ← ljReadUleb128 s
        let (fl, s) ← ljReadUleb128 s
        let (nl, s) ← ljReadUleb128 s
        pure (((dsz, fl, nl) : Nat × Nat × Nat), s)
      else pure (((0, 0, 0) : Nat × Nat × Nat), s))
    let (debuginfoSize, firstline, numline) := dbgHdr
    let (bytecode, s) ← readListN ljReadUint32 numbc s
    let (uvData, s) ← readListN ljReadUint16 numuv s
    let (constantsGc, s) ← readListN ljReadGCConst numkgc s
    let (constantsNum, s) ← readListN ljReadNumConst numkn s
    let (dbg, s) ←
      (if dumpFlags &&& BCDUMP_F_STRIP = 0 ∧ 0 < debuginfoSize then do
        let (lineinfo, s) ←
          (if 0 < numline then
            (if 65536 ≤ numline then readListN ljReadUint32 numbc s
            else if 256 ≤ numline then readListN ljReadUint16 numbc s
            else readListN ljReadByte numbc s)
          else pure (([] : List Nat), s))
        let (uvnames, s) ← readListN (fun s => do
            let (nameLen, s) ← ljReadUleb128 s
            if 0 < nameLen then do
              let (n, s) ← ljReadString nameLen s
              pure (n, s)
            else pure (([] : List Nat), s)) numuv s
        let (varnames, s) ← ljVarNamesLoop (s.length + 1) s
        pure (((lineinfo, uvnames, varnames) :
          List Nat × List (List Nat) × List LJVarName), s)
      else pure ((([], [], []) : List Nat × List (List Nat) × List LJVarName), s))
    let (lineinfo, uvnames, varnames) := dbg
    .ok ({ size := size, flags := flags, numparams := numparams, framesize := framesize,
           numuv := numuv, numkgc := numkgc, numkn := numkn, numbc := numbc,
           debuginfoSize := debuginfoSize, firstline := firstline, numline := numline,
           bytecode := bytecode, uvData := uvData, constantsGc := constantsGc,
           constantsNum := constantsNum, lineinfo := lineinfo, uvnames := uvnames,
           varnames := varnames }, s)

/-- `read_header` result. -/
structure LJHeader where
  version : Nat
  flags : Nat
  sourceName : List Nat
deriving DecidableEq, Repr

/-- `LuaJITParser.read_header`: signature and (warning-only) version, the
flags ULEB128, and the source name when debug info is not stripped.  A
version mismatch only prints a warning and raises nothing. -/
def ljReadHeader (s : Bytes) : Except PErr (LJHeader × Bytes) := do
  if s.length < 3 then throw .truncated
  if s.take 3 ≠ LUAJIT_SIGNATURE then throw .badSignature
  let s := s.drop 3
  let (_version, s) ← ljReadByte s
  let (flags, s) ← ljReadUleb128 s
  let (sourceName, s) ←
    (if flags &&& BCDUMP_F_STRIP = 0 then do
      let (nameLen, s) ← ljReadUleb128 s
      if 0 < nameLen then do
        let (n, s) ← ljReadString nameLen s
        pure (n, s)
      else pure (([] : List Nat), s)
    else pure (([] : List Nat), s))
  .ok ({ version := _version, flags := flags, sourceName := sourceName }, s)

/-- The prototype-sequence loop of `LuaJITParser.parse`: it runs while
input remains, stops at an empty (size-zero) prototype, and its
`try`/`except` catches ANY nested failure, prints a warning, and breaks,
returning the prototypes accumulated so far.  Fuel bounds the loop (each
successful iteration consumes at least one byte). -/
def ljParseLoopF (dumpFlags : Nat) : Nat → Bytes → List LJProto
  | 0, _ => []
  | fuel + 1, s =>
    if s.isEmpty then []
    else
      match ljReadProto dumpFlags s with
      | .error _ => []
      | .ok (p, s2) => if p.size = 0 then [] else p :: ljParseLoopF dumpFlags fuel s2

/-- `LuaJITParser.parse`: header, then the error-swallowing prototype
loop. -/
def ljParse (data : Bytes) : Except PErr (LJHeader × List LJProto) := do
  let (h, s) ← ljReadHeader data
  .ok (h, ljParseLoopF h.flags (s.length + 1) s)

/-! ## Varint encoders for the LuaJIT schemes -/

/-- Modelled from the spec: the repository has decoders (`read_uleb128`)
but no encoder for the LSB-first ULEB128 scheme; spec §4.1 requires each
encoder to exactly mirror its decoder.  The fuel argument bounds the
division loop; `v` itself is always enough fuel. -/
def ljWriteUleb128Aux : Nat → Nat → Bytes
  | 0, v => [v]
  | fuel + 1, v =>
    if v < 0x80 then [v]
    else ((v &&& 0x7F) ||| 0x80) :: ljWriteUleb128Aux fuel (v >>> 7)

/-- Modelled from the spec: LSB-first ULEB128 encoder (see
`ljWriteUleb128Aux`). -/
def ljWriteUleb128 (v : Nat) : Bytes := ljWriteUleb128Aux v v

/-- Modelled from the spec: encoder for the 33-bit variant, mirroring
`read_uleb128_33`: first byte carries the float flag in bit 0 and six
value bits; a value beyond six bits sets the top bit and continues as
ULEB128 groups of `lo >> 6`; a float appends `hi` as plain ULEB128. -/
def ljWriteUleb12833 (lo hi : Nat) (isNum : Bool) : Bytes :=
  if lo < 0x40 then
    ((lo <<< 1) ||| (if isNum then 1 else 0)) :: (if isNum then ljWriteUleb128 hi else [])
  else
    (((lo &&& 0x3F) <<< 1) ||| (if isNum then 1 else 0) ||| 0x80) ::
      (ljWriteUleb128 (lo >>> 6) ++ (if isNum then ljWriteUleb128 hi else []))

/-! ## Canonicity: when re-deriving a field group reproduces its captured
raw span

The writer re-derives every group except the instruction stream from the
decoded values; a decoded prototype round-trips exactly when each
re-derivation coincides with the captured span. -/

mutual
/-- Decidable per-prototype canonicity: each group the writer re-derives
(`source` under the main/child logic, the varint header fields, the
constant, upvalue and debug tables, and the child count) re-encodes to
its captured raw span, recursively for all children.  The instruction
stream and the byte-sized header fields need no condition: the writer
emits `ori['code']` verbatim and a byte field always re-packs to itself. -/
def protoCanon (isMain : Bool) : Proto → Bool
  | .mk d ps =>
    (writeProtoSource isMain d.source d.ori.source == d.ori.source) &&
    (writeSize d.linedefined == d.ori.linedefined) &&
    (writeSize d.lastlinedefined == d.ori.lastlinedefined) &&
    (writeConstants d.constants == d.ori.constants) &&
    (writeUpvalues d.upvalues == d.ori.upvalues) &&
    (writeSize ps.length == d.ori.protos) &&
    (writeDebug d.lineinfo d.abslineinfo d.locvars d.upvalue_names ==
      d.ori.lineinfo ++ d.ori.abslineinfo ++ d.ori.locvars ++ d.ori.upvalue_names) &&
    protoCanonList ps
def protoCanonList : ProtoList → Bool
  | .nil => true
  | .cons p ps => protoCanon false p && protoCanonList ps
end

/-- Decidable header canonicity: the unvalidated header fields equal the
fixed bytes `_write_header` emits. -/
def headerCanon (h : HeaderInfo) : Bool :=
  (h.formatByte == LUAC_FORMAT) && (h.luacData == LUAC_DATA) &&
  (h.instSize == 4) && (h.intSize == 8) && (h.numSize == 8) &&
  (h.testIntRaw == natToLE 8 LUAC_INT) && (h.testNumRaw == natToLE 8 LUAC_NUM_BITS)

/-- MSB-first digit accumulation, the loop invariant value of
`read_size`. -/
def foldAcc (x : Nat) (ds : List Nat) : Nat :=
  ds.foldl (fun a d => a * 0x80 + d) x

/-! ## Concrete sample values used by witnesses and counterexamples -/

/-- A child prototype with two instructions (words `5`, `6`). -/
def sampleChild : Proto :=
  Proto.mk
    ⟨[], 0, 0, 0, 0, 2, [5, 6], [], [], [], [], [], [],
      ⟨[0x80], [0x80], [0x80], [0], [0], [2], [0x82, 5, 0, 0, 0, 6, 0, 0, 0],
        [0x80], [0x80], [0x80], [0x80], [0x80], [0x80], [0x80]⟩⟩
    .nil

/-- A two-level tree: a root with three instructions (words `1`, `2`, `3`)
and one two-instruction child. -/
def sampleTree : Proto :=
  Proto.mk
    ⟨[120], 0, 0, 0, 1, 3, [1, 2, 3], [], [], [], [], [], [],
      ⟨[0x82, 120], [0x80], [0x80], [0], [1], [3],
        [0x83, 1, 0, 0, 0, 2, 0, 0, 0, 3, 0, 0, 0],
        [0x80], [0x80], [0x81], [0x80], [0x80], [0x80], [0x80]⟩⟩
    (.cons sampleChild .nil)

/-- A single-node tree whose only content is an instruction list. -/
def protoWithCode (c : List Nat) : Proto :=
  Proto.mk
    ⟨[], 0, 0, 0, 0, 0, c, [], [], [], [], [], [],
      ⟨[], [], [], [], [], [], [], [], [], [], [], [], [], []⟩⟩
    .nil

/-- The canonical 31-byte header exactly as `_write_header` emits it. -/
def canonicalHeaderBytes : Bytes :=
  [0x1B, 0x4C, 0x75, 0x61, 0x54, 0x00, 0x19, 0x93, 0x0D, 0x0A, 0x1A, 0x0A, 4, 8, 8,
   0x78, 0x56, 0, 0, 0, 0, 0, 0, 0, 0, 0, 0, 0, 0x28, 0x77, 0x40]

/-- A minimal main-prototype body: source `"x"`, one `VARARGPREP`
instruction, and every other group empty. -/
def minimalMainBytes : Bytes :=
  [0x82, 0x78, 0x80, 0x80, 0, 1, 2, 0x81, 0x51, 0, 0, 0, 0x80, 0x80, 0x80,
   0x80, 0x80, 0x80, 0x80]

/-- A well-formed buffer whose header test integer and test float are
all-zero bytes instead of the expected `0x5678` / `370.5`. -/
def zeroTestValueBuf : Bytes :=
  [0x1B, 0x4C, 0x75, 0x61, 0x54, 0x00, 0x19, 0x93, 0x0D, 0x0A, 0x1A, 0x0A, 4, 8, 8,
   0, 0, 0, 0, 0, 0, 0, 0, 0, 0, 0, 0, 0, 0, 0, 0] ++ [0] ++ minimalMainBytes

/-- Span property of an element reader: a successful read's input is the
captured raw span followed by the unconsumed rest. -/
def SpanRd (rd : Bytes → Except PErr ((α × Bytes) × Bytes)) : Prop :=
  ∀ {s : Bytes} {v : α} {raw rest : Bytes},
    rd s = .ok ((v, raw), rest) → s = raw ++ rest

/-- The canonical minimal chunk: the writer's fixed header, a zero root
upvalue byte, and the minimal main prototype. -/
def c1Buf : Bytes := canonicalHeaderBytes ++ [0] ++ minimalMainBytes

/-- The header `check_header` decodes from `canonicalHeaderBytes`. -/
def c1Hdr : HeaderInfo :=
  ⟨0, [0x19, 0x93, 0x0D, 0x0A, 0x1A, 0x0A], 4, 8, 8, 0x5678,
   [0x78, 0x56, 0, 0, 0, 0, 0, 0], 0x4077280000000000, [0, 0, 0, 0, 0, 0x28, 0x77, 0x40]⟩

/-- The prototype `read_proto` decodes from `minimalMainBytes` (source
`"x"`, one instruction word `0x51`, all other groups empty). -/
def c1Proto : Proto :=
  Proto.mk
    ⟨[120], 0, 0, 0, 1, 2, [0x51], [], [], [], [], [], [],
      ⟨[0x82, 0x78], [0x80], [0x80], [0], [1], [2], [0x81, 0x51, 0, 0, 0],
        [0x80], [0x80], [0x80], [0x80], [0x80], [0x80], [0x80]⟩⟩
    .nil

/-- The canonical buffer with its (unvalidated) format byte changed from
`0` to `1`. -/
def format1Buf : Bytes :=
  [0x1B, 0x4C, 0x75, 0x61, 0x54, 0x01, 0x19, 0x93, 0x0D, 0x0A, 0x1A, 0x0A, 4, 8, 8,
   0x78, 0x56, 0, 0, 0, 0, 0, 0, 0, 0, 0, 0, 0, 0x28, 0x77, 0x40] ++ [0] ++ minimalMainBytes

/-- Parse a buffer and re-encode the decoded main prototype, the
composition the round-trip claim is about. -/
def parseThenWrite (b : Bytes) : Option Bytes :=
  match parseLuac b with
  | .ok (_, _, p, _) => some (writeLuacFile p)
  | .error _ => Option.none

/-! # Theorems -/

/-! ## Keystream and size-prefix lemmas (cipher core) -/

theorem xorKeyStream_invol (k d : Bytes) : xorKeyStream k (xorKeyStream k d) = d := by
  apply List.ext_getElem
  · simp [xorKeyStream]
  · intro i h1 h2
    simp only [xorKeyStream, List.getElem_map, List.getElem_range] at *
    rw [List.getD_eq_getElem _ _ (by simpa [xorKeyStream] using h2)]
    simp [xorKeyStream, Nat.xor_assoc, List.getElem?_eq_getElem h2]

theorem sizePrefixSplit_spec : ∀ c : Bytes, (sizePrefixSplit c).1 ++ (sizePrefixSplit c).2 = c := by
  intro c
  induction c with
  | nil => simp [sizePrefixSplit]
  | cons b r ih =>
    by_cases hb : b &&& 0x80 ≠ 0
    · simp [sizePrefixSplit, hb]
    · rcases hsp : sizePrefixSplit r with ⟨szb, pl⟩
      rw [hsp] at ih
      simp only [sizePrefixSplit, if_neg hb, hsp] at ih ⊢
      simpa using ih

theorem sizePrefixSplit_replay : ∀ (c q : Bytes), (sizePrefixSplit c).2 ≠ [] →
    sizePrefixSplit ((sizePrefixSplit c).1 ++ q) = ((sizePrefixSplit c).1, q) := by
  intro c
  induction c with
  | nil => intro q h; simp [sizePrefixSplit] at h
  | cons b r ih =>
    intro q h
    by_cases hb : b &&& 0x80 ≠ 0
    · simp only [sizePrefixSplit, if_pos hb]
      rfl
    · rcases hsp : sizePrefixSplit r with ⟨szb, pl⟩
      rw [hsp] at ih
      simp only [sizePrefixSplit, if_neg hb, hsp] at h ⊢
      have h2 := ih q (by simpa using h)
      simp only [] at h2
      simp [List.append_eq, h2]

theorem codeTransform_invol (k c : Bytes) :
    (sizePrefixSplit ((sizePrefixSplit c).1 ++ xorKeyStream k (sizePrefixSplit c).2)).1 ++
      xorKeyStream k
        (sizePrefixSplit ((sizePrefixSplit c).1 ++ xorKeyStream k (sizePrefixSplit c).2)).2 = c := by
  by_cases h : (sizePrefixSplit c).2 = []
  · have hc : (sizePrefixSplit c).1 = c := by
      have := sizePrefixSplit_spec c
      rw [h] at this; simpa using this
    simp [h, xorKeyStream, hc]
  · rw [sizePrefixSplit_replay c _ h]
    simp [xorKeyStream_invol, sizePrefixSplit_spec]

theorem keyTruthy_of_ne (kk : Bytes) (hk : kk ≠ []) : keyTruthy (some kk) = true := by
  cases kk with
  | nil => exact absurd rfl hk
  | cons a l => rfl

mutual
theorem encryptTwice (kk : Bytes) (hk : kk ≠ []) :
    ∀ p : Proto, encryptProtoCode (some kk) true (encryptProtoCode (some kk) true p) = p
  | .mk d ps => by
    have hkt := keyTruthy_of_ne kk hk
    simp only [encryptProtoCode, hkt, Bool.and_self, if_pos, Option.getD_some]
    rw [encryptTwiceList kk hk ps]
    have hc := codeTransform_invol kk d.ori.code
    congr 1
    simp only [hc]
theorem encryptTwiceList (kk : Bytes) (hk : kk ≠ []) :
    ∀ ps : ProtoList,
      encryptProtoCodeList (some kk) true (encryptProtoCodeList (some kk) true ps) = ps
  | .nil => rfl
  | .cons p ps => by
    simp only [encryptProtoCodeList]
    rw [encryptTwice kk hk p, encryptTwiceList kk hk ps]
end

mutual
theorem decryptEqEncrypt (key : Option Bytes) (mode : Bool) :
    ∀ p : Proto, decryptProtoCode key mode p = encryptProtoCode key mode p
  | .mk d ps => by
    simp only [decryptProtoCode, encryptProtoCode]
    rw [decryptEqEncryptList key mode ps]
theorem decryptEqEncryptList (key : Option Bytes) (mode : Bool) :
    ∀ ps : ProtoList, decryptProtoCodeList key mode ps = encryptProtoCodeList key mode ps
  | .nil => rfl
  | .cons p ps => by
    simp only [decryptProtoCodeList, encryptProtoCodeList]
    rw [decryptEqEncrypt key mode p, decryptEqEncryptList key mode ps]
end

/-- C2: for every tree and every non-empty key, the tree-wide
instruction-stream transform is an involution: decrypting after
encrypting (or applying either one twice) with the same key restores
every node's captured instruction-stream span and leaves every other
field untouched. -/
theorem c2_cipher_involution (kk : Bytes) (hk : kk ≠ []) (p : Proto) :
    decryptProtoCode (some kk) true (encryptProtoCode (some kk) true p) = p ∧
    encryptProtoCode (some kk) true (encryptProtoCode (some kk) true p) = p ∧
    decryptProtoCode (some kk) true (decryptProtoCode (some kk) true p) = p := by
  refine ⟨?_, encryptTwice kk hk p, ?_⟩
  · rw [decryptEqEncrypt]; exact encryptTwice kk hk p
  · rw [decryptEqEncrypt, decryptEqEncrypt]; exact encryptTwice kk hk p

/-- Witness for C2 at the key `"ab"` and a two-node tree (a
three-instruction root with a two-instruction child). -/
theorem c2_cipher_involution_witness :
    (([97, 98] : Bytes) ≠ [] ∧
      decryptProtoCode (some [97, 98]) true (encryptProtoCode (some [97, 98]) true sampleTree) =
        sampleTree) ∧
    encryptProtoCode (some [97, 98]) true sampleTree ≠ sampleTree :=
  ⟨⟨by decide, (c2_cipher_involution [97, 98] (by decide) sampleTree).1⟩, by decide⟩

/-- C9 (counterexample): invoking the tree-wide transform with the empty
key (as set by `set_encryption_key(b"")`, so `encrypt_mode` is on) does
not fail: it silently returns the tree unchanged, while a non-empty key
does transform it. -/
theorem c9_empty_key_counterexample :
    encryptProtoCode (some []) true sampleTree = sampleTree ∧
    decryptProtoCode (some []) true sampleTree = sampleTree ∧
    encryptProtoCode (some [1]) true sampleTree ≠ sampleTree := by
  decide

/-- C9 (amended): only the byte-level `encrypt_code_data` /
`decrypt_code_data` raise the missing-key error; the tree-wide
`encrypt_proto_code` / `decrypt_proto_code` guard returns silently when
the key is missing or empty, leaving every tree unchanged without any
error. -/
theorem c9_empty_key_amended :
    (∀ d : Bytes, encryptCodeData [] d = .error .missingKey) ∧
    (∀ d : Bytes, decryptCodeData [] d = .error .missingKey) ∧
    (∀ (p : Proto) (mode : Bool), encryptProtoCode Option.none mode p = p) ∧
    (∀ (p : Proto) (mode : Bool), encryptProtoCode (some []) mode p = p) ∧
    (∀ (p : Proto) (mode : Bool), decryptProtoCode Option.none mode p = p) ∧
    (∀ (p : Proto) (mode : Bool), decryptProtoCode (some []) mode p = p) := by
  refine ⟨fun d => rfl, fun d => rfl, ?_, ?_, ?_, ?_⟩ <;>
    (intro p mode; cases p with
     | mk d ps => simp [encryptProtoCode, decryptProtoCode, keyTruthy])

/-- C5: instruction decoding is total over words: the decoded view's
opcode field is always the word's low 7 bits, and a word whose opcode is
outside `OPCODE_INFO` still decodes, tagged `"UNKNOWN"`, with no error
(totality is manifest in the non-fallible result type). -/
theorem c5_decode_instruction_total (w : Nat) :
    (decodeInstruction w).opcode = w &&& 0x7F ∧
    (OPCODE_INFO (w &&& 0x7F) = Option.none → (decodeInstruction w).name = "UNKNOWN") := by
  constructor
  · simp only [decodeInstruction]
    cases OPCODE_INFO (w &&& 0x7F) with
    | none => rfl
    | some nm => cases nm with | mk a b => rfl
  · intro h
    simp only [decodeInstruction, h]

/-- Witness for C5 at the word `100`, whose opcode `100` is outside the
table (the known opcodes are `0..82`). -/
theorem c5_decode_instruction_total_witness :
    OPCODE_INFO (100 &&& 0x7F) = Option.none ∧ (decodeInstruction 100).opcode = 100 &&& 0x7F ∧
      (decodeInstruction 100).name = "UNKNOWN" :=
  ⟨by decide, (c5_decode_instruction_total 100).1, (c5_decode_instruction_total 100).2 (by decide)⟩

/-- C10: `_write_constants` writes a string constant with the
short-string tag `VSHRSTR = 20` exactly when the decoded character length
is at most 40 and with `VLNGSTR = 36` otherwise; the reader produces the
same constant under either tag byte (so the original tag is forgotten);
and concretely, a short string decoded under tag 36 is re-encoded under
tag 20. -/
theorem c10_string_tag_normalization :
    (∀ s : List Nat,
      writeConstElem (.str s) =
        (if s.length ≤ 40 then VSHRSTR else VLNGSTR) :: writeString (some s)) ∧
    (∀ data : Bytes,
      (readConstElem (VSHRSTR :: data)).map (fun x => (x.1.1, x.2)) =
        (readConstElem (VLNGSTR :: data)).map (fun x => (x.1.1, x.2))) ∧
    readConstElem (36 :: [0x82, 65]) = .ok ((.str [65], [36, 0x82, 65]), []) ∧
    writeConstElem (.str [65]) = [20, 0x82, 65] := by
  refine ⟨fun s => rfl, ?_, by decide, by decide⟩
  intro data
  cases h : readStringRaw data with
  | error e => simp [readConstElem, readByteRaw, bind, Except.bind, Except.map,
      VNIL, VFALSE, VTRUE, VNUMFLT, VNUMINT, VSHRSTR, VLNGSTR, h]
  | ok v => simp [readConstElem, readByteRaw, bind, Except.bind, Except.map,
      VNIL, VFALSE, VTRUE, VNUMFLT, VNUMINT, VSHRSTR, VLNGSTR, h]

/-! ## Varint round trips (C4) -/

theorem and7F_mod (v : Nat) : v &&& 0x7F = v % 128 :=
  Nat.and_pow_two_sub_one_eq_mod v 7

theorem natAndOrRight (a b c : Nat) : (a ||| b) &&& c = (a &&& c) ||| (b &&& c) := by
  apply Nat.eq_of_testBit_eq
  intro i
  simp only [Nat.testBit_or, Nat.testBit_and]
  cases a.testBit i <;> cases b.testBit i <;> cases c.testBit i <;> rfl

theorem and7F_self (d : Nat) (h : d < 0x80) : d &&& 0x7F = d := by
  have := and7F_mod d; omega

theorem and80_eq_zero (d : Nat) (h : d < 0x80) : d &&& 0x80 = 0 := by
  have h1 := Nat.and_two_pow d 7
  have h2 : d.testBit 7 = false := Nat.testBit_lt_two_pow h
  simp [h2] at h1
  simpa using h1

theorem orHigh_and7F (d : Nat) (h : d < 0x80) : (d ||| 0x80) &&& 0x7F = d := by
  rw [natAndOrRight, and7F_self d h]
  simp [(by decide : (0x80 : Nat) &&& 0x7F = 0)]

theorem orHigh_and80 (d : Nat) (h : d < 0x80) : (d ||| 0x80) &&& 0x80 = 0x80 := by
  rw [natAndOrRight, and80_eq_zero d h]
  simp [(by decide : (0x80 : Nat) &&& 0x80 = 0x80)]

theorem and3F_mod (v : Nat) : v &&& 0x3F = v % 64 :=
  Nat.and_pow_two_sub_one_eq_mod v 6

theorem foldAcc_append (x : Nat) (l1 l2 : List Nat) :
    foldAcc x (l1 ++ l2) = foldAcc (foldAcc x l1) l2 := by
  simp [foldAcc, List.foldl_append]

theorem foldAcc_le (x : Nat) (ds : List Nat) : x ≤ foldAcc x ds := by
  induction ds generalizing x with
  | nil => simp [foldAcc]
  | cons d ds ih =>
    have h1 : x ≤ x * 0x80 + d := by omega
    calc x ≤ x * 0x80 + d := h1
    _ ≤ foldAcc (x * 0x80 + d) ds := ih _
    _ = foldAcc x (d :: ds) := rfl

theorem readSizeAux_digits : ∀ (ds : List Nat) (x : Nat) (rest : Bytes), ds ≠ [] →
    (∀ d ∈ ds, d < 0x80) → foldAcc x ds.dropLast < sizeLimit →
    readSizeAux (setLastHighBit ds ++ rest) x = .ok (foldAcc x ds, setLastHighBit ds, rest) := by
  intro ds
  induction ds with
  | nil => intro x rest h; exact absurd rfl h
  | cons d ds ih =>
    intro x rest _ hlt hover
    have hd : d < 0x80 := hlt d (by simp)
    cases ds with
    | nil =>
      have hx : ¬ sizeLimit ≤ x := by
        simp [foldAcc, List.dropLast] at hover; omega
      have hand : (d ||| 0x80) &&& 0x7F = d := orHigh_and7F d hd
      have hbit : (d ||| 0x80) &&& 0x80 ≠ 0 := by rw [orHigh_and80 d hd]; norm_num
      simp [setLastHighBit, readSizeAux, hx, hand, hbit, foldAcc]
    | cons d2 ds2 =>
      have hslh : setLastHighBit (d :: d2 :: ds2) = d :: setLastHighBit (d2 :: ds2) := rfl
      have hdl : (d :: d2 :: ds2).dropLast = d :: (d2 :: ds2).dropLast := rfl
      have hfa : foldAcc x ((d :: d2 :: ds2).dropLast) = foldAcc (x * 0x80 + d) ((d2 :: ds2).dropLast) := by
        rw [hdl]; rfl
      have hx : ¬ sizeLimit ≤ x := by
        have h1 := foldAcc_le (x * 0x80 + d) ((d2 :: ds2).dropLast)
        rw [hfa] at hover
        omega
      have hnb : ¬ d &&& 0x80 ≠ 0 := by rw [and80_eq_zero d hd]; norm_num
      have hand : d &&& 0x7F = d := and7F_self d hd
      have ihr := ih (x * 0x80 + d) rest (by simp) (fun d2 h2 => hlt d2 (by simp [h2]))
        (by rw [hfa] at hover; exact hover)
      rw [hslh]
      simp only [List.cons_append, readSizeAux, if_neg hx, hand, ne_eq, hnb, if_false,
        ite_false, List.append_eq]
      rw [ihr]
      have heq : foldAcc x (d :: d2 :: ds2) = foldAcc (x * 0x80 + d) (d2 :: ds2) := rfl
      simp [heq]

theorem wsd_all_lt : ∀ (fuel v : Nat), ∀ d ∈ writeSizeDigits fuel v, d < 0x80 := by
  intro fuel
  induction fuel with
  | zero => intro v d h; simp [writeSizeDigits] at h
  | succ f ih =>
    intro v d h
    by_cases hv : v = 0
    · simp [writeSizeDigits, hv] at h
    · simp only [writeSizeDigits, if_neg hv, List.mem_cons] at h
      rcases h with h | h
      · subst h; have := and7F_mod v; omega
      · exact ih _ d h

theorem wsd_ne_nil (fuel v : Nat) (hv : v ≠ 0) : writeSizeDigits (fuel + 1) v ≠ [] := by
  simp [writeSizeDigits, hv]

theorem wsd_foldAcc : ∀ (fuel v : Nat), v ≤ fuel →
    foldAcc 0 (writeSizeDigits fuel v).reverse = v := by
  intro fuel
  induction fuel with
  | zero => intro v hv; interval_cases v; simp [writeSizeDigits, foldAcc]
  | succ f ih =>
    intro v hv
    by_cases h0 : v = 0
    · simp [writeSizeDigits, h0, foldAcc]
    · have hrec : v >>> 7 ≤ f := by
        have : v >>> 7 = v / 128 := by omega
        omega
      simp only [writeSizeDigits, if_neg h0, List.reverse_cons]
      rw [foldAcc_append, ih _ hrec]
      simp [foldAcc]
      have := and7F_mod v
      omega

theorem wsd_foldAcc_dropLast : ∀ (fuel v : Nat), v ≤ fuel → v ≠ 0 →
    foldAcc 0 (writeSizeDigits fuel v).reverse.dropLast = v >>> 7 := by
  intro fuel v hv h0
  cases fuel with
  | zero => omega
  | succ f =>
    have hrec : v >>> 7 ≤ f := by
      have : v >>> 7 = v / 128 := by omega
      omega
    simp only [writeSizeDigits, if_neg h0, List.reverse_cons, List.dropLast_append_cons]
    simp [wsd_foldAcc f _ hrec]

/-- C4 part 1: MSB-terminated scheme round trip. -/
theorem readSizeRaw_writeSize (v : Nat) (hv : v < 2 ^ 64) (rest : Bytes) :
    readSizeRaw (writeSize v ++ rest) = .ok (v, writeSize v, rest) := by
  by_cases h0 : v = 0
  · subst h0
    simp [writeSize, readSizeRaw, readSizeAux, sizeLimit, foldAcc,
      (by decide : (0x80 : Nat) &&& 0x7F = 0), (by decide : (0x80 : Nat) &&& 0x80 = 0x80)]
  · have hne : (writeSizeDigits v v).reverse ≠ [] := by
      simp only [ne_eq, List.reverse_eq_nil_iff]
      cases v with
      | zero => exact absurd rfl h0
      | succ n => exact wsd_ne_nil n (n + 1) h0
    have hlt : ∀ d ∈ (writeSizeDigits v v).reverse, d < 0x80 := by
      intro d hd
      exact wsd_all_lt v v d (List.mem_reverse.mp hd)
    have hover : foldAcc 0 (writeSizeDigits v v).reverse.dropLast < sizeLimit := by
      rw [wsd_foldAcc_dropLast v v (le_refl v) h0]
      have h1 : v >>> 7 = v / 128 := by omega
      have : sizeLimit = 2 ^ 57 := by decide
      omega
    have := readSizeAux_digits (writeSizeDigits v v).reverse 0 rest hne hlt hover
    rw [wsd_foldAcc v v (le_refl v)] at this
    simpa [writeSize, h0, readSizeRaw] using this

theorem natShiftRightOr (a b n : Nat) : (a ||| b) >>> n = (a >>> n) ||| (b >>> n) := by
  apply Nat.eq_of_testBit_eq
  intro i
  simp [Nat.testBit_or, Nat.testBit_shiftRight]

theorem recomposeBits (k v shift : Nat) :
    ((v &&& (2 ^ k - 1)) <<< shift) ||| ((v >>> k) <<< (shift + k)) = v <<< shift := by
  apply Nat.eq_of_testBit_eq
  intro i
  simp only [Nat.testBit_or, Nat.testBit_shiftLeft, Nat.testBit_shiftRight, Nat.testBit_and,
    Nat.testBit_two_pow_sub_one]
  rcases Nat.lt_or_ge i shift with h | h
  · have e1 : decide (shift ≤ i) = false := by simp; omega
    have e2 : decide (shift + k ≤ i) = false := by simp; omega
    simp [e1, e2]
  · rcases Nat.lt_or_ge i (shift + k) with h2 | h2
    · have e1 : decide (shift ≤ i) = true := by simp; omega
      have e2 : decide (shift + k ≤ i) = false := by simp; omega
      have e3 : decide (i - shift < k) = true := by simp; omega
      simp [e1, e2, e3]
    · have e1 : decide (shift ≤ i) = true := by simp; omega
      have e2 : decide (shift + k ≤ i) = true := by simp; omega
      have e3 : decide (i - shift < k) = false := by simp; omega
      have e4 : k + (i - (shift + k)) = i - shift := by omega
      simp [e1, e2, e3, e4]

theorem recompose7 (v shift : Nat) :
    ((v &&& 0x7F) <<< shift) ||| ((v >>> 7) <<< (shift + 7)) = v <<< shift :=
  recomposeBits 7 v shift

theorem and7F_lt (v : Nat) : v &&& 0x7F < 0x80 := by
  have := and7F_mod v; omega

theorem ljUlebAux_encode : ∀ (fuel v result shift : Nat) (rest : Bytes),
    v ≤ fuel → v < 2 ^ (35 - shift) →
    ljReadUleb128Aux (ljWriteUleb128Aux fuel v ++ rest) result shift =
      .ok (result ||| (v <<< shift), rest) := by
  intro fuel
  induction fuel with
  | zero =>
    intro v result shift rest hf hb
    have hv : v = 0 := by omega
    subst hv
    simp [ljWriteUleb128Aux, ljReadUleb128Aux]
  | succ f ih =>
    intro v result shift rest hf hb
    by_cases hlt : v < 0x80
    · simp only [ljWriteUleb128Aux, if_pos hlt, List.cons_append, List.nil_append,
        ljReadUleb128Aux, and7F_self v hlt, and80_eq_zero v hlt]
      simp
    · have h1 : (((v &&& 0x7F) ||| 0x80) &&& 0x7F) = v &&& 0x7F := orHigh_and7F _ (and7F_lt v)
      have h2 : (((v &&& 0x7F) ||| 0x80) &&& 0x80) = 0x80 := orHigh_and80 _ (and7F_lt v)
      have h7 : (7 : Nat) < 35 - shift := by
        have hge : 2 ^ 7 ≤ v := by omega
        have : (2 : Nat) ^ 7 < 2 ^ (35 - shift) := lt_of_le_of_lt hge hb
        exact (Nat.pow_lt_pow_iff_right one_lt_two).mp this
      have hnb : ¬ (35 : Nat) ≤ shift + 7 := by omega
      have hrec1 : v >>> 7 ≤ f := by
        have hd : v >>> 7 = v / 128 := by omega
        omega
      have hrec2 : v >>> 7 < 2 ^ (35 - (shift + 7)) := by
        have hd : v >>> 7 = v / 2 ^ 7 := by omega
        rw [hd, Nat.div_lt_iff_lt_mul (by norm_num : (0:Nat) < 2 ^ 7)]
        have : (2:Nat) ^ (35 - (shift + 7)) * 2 ^ 7 = 2 ^ (35 - shift) := by
          rw [← pow_add]
          congr 1
          omega
        rw [this]
        exact hb
      simp only [ljWriteUleb128Aux, if_neg hlt, List.cons_append, ljReadUleb128Aux,
        h1, h2]
      norm_num [hnb]
      rw [ih (v >>> 7) (result ||| ((v &&& 0x7F) <<< shift)) (shift + 7) rest hrec1 hrec2]
      rw [Nat.lor_assoc, recompose7]

/-- C4 part 2: ULEB128 round trip. -/
theorem ljReadUleb128_write (v : Nat) (hv : v < 2 ^ 35) (rest : Bytes) :
    ljReadUleb128 (ljWriteUleb128 v ++ rest) = .ok (v, rest) := by
  have := ljUlebAux_encode v v 0 0 rest (le_refl v) (by simpa using hv)
  simpa [ljReadUleb128, ljWriteUleb128] using this

theorem lj33Loop_encode : ∀ (fuel v acc shift : Nat) (rest : Bytes),
    v ≤ fuel → v < 2 ^ (32 - shift) →
    ljUleb33Loop (ljWriteUleb128Aux fuel v ++ rest) acc shift =
      .ok (acc ||| (v <<< shift), rest) := by
  intro fuel
  induction fuel with
  | zero =>
    intro v acc shift rest hf hb
    have hv : v = 0 := by omega
    subst hv
    simp [ljWriteUleb128Aux, ljUleb33Loop]
  | succ f ih =>
    intro v acc shift rest hf hb
    by_cases hlt : v < 0x80
    · simp only [ljWriteUleb128Aux, if_pos hlt, List.cons_append, List.nil_append,
        ljUleb33Loop, and7F_self v hlt, and80_eq_zero v hlt]
      simp
    · have h1 : (((v &&& 0x7F) ||| 0x80) &&& 0x7F) = v &&& 0x7F := orHigh_and7F _ (and7F_lt v)
      have h2 : (((v &&& 0x7F) ||| 0x80) &&& 0x80) = 0x80 := orHigh_and80 _ (and7F_lt v)
      have h7 : (7 : Nat) < 32 - shift := by
        have hge : 2 ^ 7 ≤ v := by omega
        have : (2 : Nat) ^ 7 < 2 ^ (32 - shift) := lt_of_le_of_lt hge hb
        exact (Nat.pow_lt_pow_iff_right one_lt_two).mp this
      have hnb : ¬ (32 : Nat) ≤ shift + 7 := by omega
      have hrec1 : v >>> 7 ≤ f := by
        have hd : v >>> 7 = v / 128 := by omega
        omega
      have hrec2 : v >>> 7 < 2 ^ (32 - (shift + 7)) := by
        have hd : v >>> 7 = v / 2 ^ 7 := by omega
        rw [hd, Nat.div_lt_iff_lt_mul (by norm_num : (0:Nat) < 2 ^ 7)]
        have : (2:Nat) ^ (32 - (shift + 7)) * 2 ^ 7 = 2 ^ (32 - shift) := by
          rw [← pow_add]
          congr 1
          omega
        rw [this]
        exact hb
      simp only [ljWriteUleb128Aux, if_neg hlt, List.cons_append, ljUleb33Loop, h1, h2]
      norm_num [hnb]
      rw [ih (v >>> 7) (acc ||| ((v &&& 0x7F) <<< shift)) (shift + 7) rest hrec1 hrec2]
      rw [Nat.lor_assoc, recompose7]

theorem and3F_self (d : Nat) (h : d < 0x40) : d &&& 0x3F = d := by
  have := and3F_mod d; omega

theorem and3F_lt (v : Nat) : v &&& 0x3F < 0x40 := by
  have := and3F_mod v; omega

theorem and_one_of_even (a : Nat) : (a <<< 1) &&& 1 = 0 := by
  have h1 : (a <<< 1) &&& 1 = (a <<< 1) % 2 := Nat.and_pow_two_sub_one_eq_mod (a <<< 1) 1
  omega

/-- C4 part 3: 33-bit variant, integer branch. -/
theorem ljReadUleb12833_write_int (lo : Nat) (hlo : lo < 2 ^ 32) (rest : Bytes) :
    ljReadUleb12833 (ljWriteUleb12833 lo 0 false ++ rest) = .ok ((lo, 0), false, rest) := by
  by_cases hsm : lo < 0x40
  · simp only [ljWriteUleb12833, if_pos hsm, if_neg (by simp : ¬ false = true)]
    simp only [Bool.false_eq_true, ite_false, List.nil_append, List.cons_append,
      ljReadUleb12833]
    have he : (lo <<< 1) ||| 0 = lo <<< 1 := Nat.or_zero _
    have h1 : ((lo <<< 1) ||| 0) &&& 1 = 0 := by rw [he]; exact and_one_of_even lo
    have h2 : ((lo <<< 1) ||| 0) >>> 1 = lo := by rw [he]; omega
    simp [h1, h2, and3F_self lo hsm, Nat.not_lt.mpr (by omega : lo ≤ 0x3F)]
  · simp only [ljWriteUleb12833, if_neg hsm]
    simp only [Bool.false_eq_true, ite_false, Nat.or_zero, List.cons_append,
      ljReadUleb12833]
    set x := (lo &&& 0x3F) <<< 1 with hx
    have hxlt : lo &&& 0x3F < 0x40 := and3F_lt lo
    have h1 : (x ||| 0x80) &&& 1 = 0 := by
      rw [natAndOrRight]
      rw [hx, and_one_of_even]
      decide
    have h2 : (x ||| 0x80) >>> 1 = (lo &&& 0x3F) ||| 0x40 := by
      rw [natShiftRightOr, hx]
      have hs : ((lo &&& 0x3F) <<< 1) >>> 1 = lo &&& 0x3F := by omega
      rw [hs, (by decide : (0x80 : Nat) >>> 1 = 0x40)]
    have h3 : 0x3F < (x ||| 0x80) >>> 1 := by
      rw [h2]
      have hb : ((lo &&& 0x3F) ||| 0x40).testBit 6 = true := by
        rw [Nat.testBit_or, (by decide : Nat.testBit 0x40 6 = true)]
        simp
      have := Nat.testBit_implies_ge hb
      omega
    have h4 : ((x ||| 0x80) >>> 1) &&& 0x3F = lo &&& 0x3F := by
      rw [h2, natAndOrRight, Nat.and_assoc, (by decide : (0x40 : Nat) &&& 0x3F = 0)]
      simp [(by decide : (0x3F : Nat) &&& 0x3F = 0x3F)]
    simp only [h1, ne_eq, not_true_eq_false, h3, if_pos, h4]
    have hlow : lo >>> 6 ≤ lo >>> 6 := le_refl _
    have hbnd : lo >>> 6 < 2 ^ (32 - 6) := by
      have hd : lo >>> 6 = lo / 2 ^ 6 := by omega
      rw [hd, Nat.div_lt_iff_lt_mul (by norm_num : (0:Nat) < 2 ^ 6)]
      calc lo < 2 ^ 32 := hlo
      _ ≤ 2 ^ (32 - 6) * 2 ^ 6 := by norm_num
    have hloop : ljUleb33Loop (ljWriteUleb128 (lo >>> 6) ++ rest) (lo &&& 0x3F) 6 =
        .ok ((lo &&& 0x3F) ||| ((lo >>> 6) <<< 6), rest) :=
      lj33Loop_encode (lo >>> 6) (lo >>> 6) (lo &&& 0x3F) 6 rest hlow hbnd
    simp only [List.append_assoc, List.append_nil] at *
    rw [hloop]
    have hre : (lo &&& 0x3F) ||| ((lo >>> 6) <<< 6) = lo := by
      have := recomposeBits 6 lo 0
      simpa using this
    simp [hre]

/-- C4 part 4: 33-bit variant, float branch. -/
theorem ljReadUleb12833_write_num (lo hi : Nat) (hlo : lo < 2 ^ 32) (hhi : hi < 2 ^ 32)
    (rest : Bytes) :
    ljReadUleb12833 (ljWriteUleb12833 lo hi true ++ rest) = .ok ((lo, hi), true, rest) := by
  have hhi35 : hi < 2 ^ 35 := lt_trans hhi (by norm_num)
  have hread := ljReadUleb128_write hi hhi35 rest
  by_cases hsm : lo < 0x40
  · simp only [ljWriteUleb12833, if_pos hsm, ite_true, List.cons_append, ljReadUleb12833]
    have h1 : ((lo <<< 1) ||| 1) &&& 1 = 1 := by
      rw [natAndOrRight, and_one_of_even]
      decide
    have h2 : ((lo <<< 1) ||| 1) >>> 1 = lo := by
      rw [natShiftRightOr, (by decide : (1 : Nat) >>> 1 = 0)]
      have hs : (lo <<< 1) >>> 1 = lo := by omega
      simp [hs]
    have h3 : ¬ 0x3F < ((lo <<< 1) ||| 1) >>> 1 := by
      rw [h2]; omega
    simp only [h1, h2, and3F_self lo hsm]
    rw [if_neg (by omega : ¬ (0x3F : Nat) < lo)]
    simp only [ne_eq, one_ne_zero, not_false_eq_true, hread]
    simp
  · simp only [ljWriteUleb12833, if_neg hsm, List.cons_append, ljReadUleb12833]
    set x := (lo &&& 0x3F) <<< 1 with hx
    have hxlt : lo &&& 0x3F < 0x40 := and3F_lt lo
    have h1 : ((x ||| 1) ||| 0x80) &&& 1 = 1 := by
      rw [natAndOrRight, natAndOrRight, hx, and_one_of_even]
      decide
    have h2 : ((x ||| 1) ||| 0x80) >>> 1 = (lo &&& 0x3F) ||| 0x40 := by
      rw [natShiftRightOr, natShiftRightOr, hx]
      have hs : ((lo &&& 0x3F) <<< 1) >>> 1 = lo &&& 0x3F := by omega
      rw [hs, (by decide : (1 : Nat) >>> 1 = 0), (by decide : (0x80 : Nat) >>> 1 = 0x40)]
      simp
    have h3 : 0x3F < ((x ||| 1) ||| 0x80) >>> 1 := by
      rw [h2]
      have hb : ((lo &&& 0x3F) ||| 0x40).testBit 6 = true := by
        rw [Nat.testBit_or, (by decide : Nat.testBit 0x40 6 = true)]
        simp
      have := Nat.testBit_implies_ge hb
      omega
    have h4 : (((x ||| 1) ||| 0x80) >>> 1) &&& 0x3F = lo &&& 0x3F := by
      rw [h2, natAndOrRight, Nat.and_assoc, (by decide : (0x40 : Nat) &&& 0x3F = 0)]
      simp [(by decide : (0x3F : Nat) &&& 0x3F = 0x3F)]
    simp only [h1, h2, h3, if_pos, h4]
    have hlow : lo >>> 6 ≤ lo >>> 6 := le_refl _
    have hbnd : lo >>> 6 < 2 ^ (32 - 6) := by
      have hd : lo >>> 6 = lo / 2 ^ 6 := by omega
      rw [hd, Nat.div_lt_iff_lt_mul (by norm_num : (0:Nat) < 2 ^ 6)]
      calc lo < 2 ^ 32 := hlo
      _ ≤ 2 ^ (32 - 6) * 2 ^ 6 := by norm_num
    have hloop : ljUleb33Loop (ljWriteUleb128 (lo >>> 6) ++ (ljWriteUleb128 hi ++ rest))
        (lo &&& 0x3F) 6 =
        .ok ((lo &&& 0x3F) ||| ((lo >>> 6) <<< 6), ljWriteUleb128 hi ++ rest) :=
      lj33Loop_encode (lo >>> 6) (lo >>> 6) (lo &&& 0x3F) 6 (ljWriteUleb128 hi ++ rest)
        hlow hbnd
    have h3b : (0x3F : Nat) < (lo &&& 0x3F) ||| 0x40 := by rw [← h2]; exact h3
    have h4b : ((lo &&& 0x3F) ||| 0x40) &&& 0x3F = lo &&& 0x3F := by rw [← h2]; exact h4
    simp only [ite_true, List.append_assoc] at *
    rw [if_pos h3b, h4b, hloop]
    have hre : (lo &&& 0x3F) ||| ((lo >>> 6) <<< 6) = lo := by
      have := recomposeBits 6 lo 0
      simpa using this
    simp only [hre, ne_eq, one_ne_zero, not_false_eq_true, hread]
    simp

/-- C4: encoding then decoding returns the value for each varint scheme:
the MSB-terminated big-endian 7-bit scheme of `read_size`/`_write_size`
(for every value below `2^64`, the decoder's representable range,
including `v = 0`), the LSB-first ULEB128 scheme (below `2^35`, the
decoder's range), and both the integer and the float branch of the
33-bit variant (32-bit `lo` and `hi`). -/
theorem c4_varint_roundtrip :
    (∀ (v : Nat) (rest : Bytes), v < 2 ^ 64 →
      readSizeRaw (writeSize v ++ rest) = .ok (v, writeSize v, rest)) ∧
    (∀ (v : Nat) (rest : Bytes), v < 2 ^ 35 →
      ljReadUleb128 (ljWriteUleb128 v ++ rest) = .ok (v, rest)) ∧
    (∀ (lo : Nat) (rest : Bytes), lo < 2 ^ 32 →
      ljReadUleb12833 (ljWriteUleb12833 lo 0 false ++ rest) = .ok ((lo, 0), false, rest)) ∧
    (∀ (lo hi : Nat) (rest : Bytes), lo < 2 ^ 32 → hi < 2 ^ 32 →
      ljReadUleb12833 (ljWriteUleb12833 lo hi true ++ rest) = .ok ((lo, hi), true, rest)) :=
  ⟨fun v rest hv => readSizeRaw_writeSize v hv rest,
   fun v rest hv => ljReadUleb128_write v hv rest,
   fun lo rest hlo => ljReadUleb12833_write_int lo hlo rest,
   fun lo hi rest hlo hhi => ljReadUleb12833_write_num lo hi hlo hhi rest⟩

/-- Witness for C4 at `v = 0` and `v = 1000` (MSB scheme), `v = 300`
(ULEB128), and `lo = 1000`, `hi = 77` (both 33-bit branches). -/
theorem c4_varint_roundtrip_witness :
    ((0 : Nat) < 2 ^ 64 ∧ readSizeRaw (writeSize 0 ++ [9]) = .ok (0, writeSize 0, [9])) ∧
    ((1000 : Nat) < 2 ^ 64 ∧
      readSizeRaw (writeSize 1000 ++ [9]) = .ok (1000, writeSize 1000, [9])) ∧
    ((300 : Nat) < 2 ^ 35 ∧ ljReadUleb128 (ljWriteUleb128 300 ++ [9]) = .ok (300, [9])) ∧
    ((1000 : Nat) < 2 ^ 32 ∧
      ljReadUleb12833 (ljWriteUleb12833 1000 0 false ++ [9]) = .ok ((1000, 0), false, [9])) ∧
    ((1000 : Nat) < 2 ^ 32 ∧ (77 : Nat) < 2 ^ 32 ∧
      ljReadUleb12833 (ljWriteUleb12833 1000 77 true ++ [9]) = .ok ((1000, 77), true, [9])) :=
  ⟨⟨by norm_num, c4_varint_roundtrip.1 0 [9] (by norm_num)⟩,
   ⟨by norm_num, c4_varint_roundtrip.1 1000 [9] (by norm_num)⟩,
   ⟨by norm_num, c4_varint_roundtrip.2.1 300 [9] (by norm_num)⟩,
   ⟨by norm_num, c4_varint_roundtrip.2.2.1 1000 [9] (by norm_num)⟩,
   ⟨by norm_num, by norm_num, c4_varint_roundtrip.2.2.2 1000 77 [9] (by norm_num) (by norm_num)⟩⟩

/-! ## Opcode-correspondence lemmas (C6) -/

theorem decodeInstruction_opcode (i : Nat) : (decodeInstruction i).opcode = i &&& 0x7F := by
  simp only [decodeInstruction]
  cases OPCODE_INFO (i &&& 0x7F) with
  | none => rfl
  | some nm => cases nm with | mk a b => rfl

theorem lookup_append (l1 l2 : List (Nat × Nat)) (k : Nat) :
    (l1 ++ l2).lookup k = ((l1.lookup k).or (l2.lookup k)) := by
  induction l1 with
  | nil => simp [List.lookup]
  | cons p l ih =>
    cases p with
    | mk a b =>
      by_cases h : k = a
      · simp [List.lookup, h]
      · simp [List.lookup, h, ih, beq_false_of_ne h]

theorem analyzeAux_lookup : ∀ (ps : List (Nat × Nat)) (m : List (Nat × Nat))
    (inc : List (Nat × Nat × Nat)) (k : Nat),
    ((analyzeAux ps m inc).1).lookup k =
      ((m.lookup k).or ((ps.map (fun q => (q.1 &&& 0x7F, q.2 &&& 0x7F))).lookup k)) := by
  intro ps
  induction ps with
  | nil => intro m inc k; simp [analyzeAux]
  | cons p rest ih =>
    intro m inc k
    cases p with
    | mk a b =>
      simp only [analyzeAux, decodeInstruction_opcode]
      cases hm : m.lookup (a &&& 0x7F) with
      | some prev =>
        simp only []
        by_cases hc : prev ≠ b &&& 0x7F
        · rw [if_pos hc, ih]
          by_cases hk : k = a &&& 0x7F
          · subst hk
            simp [List.lookup, hm]
          · simp [List.lookup, beq_false_of_ne hk]
        · rw [if_neg hc, ih]
          by_cases hk : k = a &&& 0x7F
          · subst hk
            simp [List.lookup, hm]
          · simp [List.lookup, beq_false_of_ne hk]
      | none =>
        simp only []
        rw [ih]
        by_cases hk : k = a &&& 0x7F
        · subst hk
          simp [List.lookup, lookup_append, hm]
        · simp [List.lookup, lookup_append, beq_false_of_ne hk]

/-- C6: `compare_opcodes` flattens each tree in identical preorder
(`extractAllInstructions`: a node's own instructions, then each child's,
recursively), fails with the instruction-count-mismatch error exactly
when the two flattened sequences differ in length, otherwise succeeds
(conflicts are reported only in the non-fatal inconsistency list), and
the resulting dict maps each standard opcode to the shuffled opcode of
its first aligned occurrence (the first matching pair of the zipped,
opcode-projected sequences). -/
theorem c6_compare_opcodes :
    (∀ std shuf : Proto,
      (compareOpcodes std shuf = .error .instrCountMismatch ↔
        (extractAllInstructions std).length ≠ (extractAllInstructions shuf).length)) ∧
    (∀ std shuf : Proto,
      (extractAllInstructions std).length = (extractAllInstructions shuf).length →
        compareOpcodes std shuf =
          .ok (analyzeOpcodeMapping (extractAllInstructions std) (extractAllInstructions shuf))) ∧
    (∀ (A B : List Nat) (k : Nat),
      ((analyzeOpcodeMapping A B).1).lookup k =
        ((A.zip B).map (fun q => (q.1 &&& 0x7F, q.2 &&& 0x7F))).lookup k) := by
  refine ⟨?_, ?_, ?_⟩
  · intro std shuf
    by_cases h : (extractAllInstructions std).length = (extractAllInstructions shuf).length
    · simp [compareOpcodes, h]
    · simp [compareOpcodes, h]
  · intro std shuf h
    simp [compareOpcodes, h]
  · intro A B k
    have := analyzeAux_lookup (A.zip B) [] [] k
    simpa [analyzeOpcodeMapping, List.lookup] using this

/-- Witness for C6: Scenario 3 — two single-instruction trees whose
words decode to opcodes 5 and 9 give the mapping `{5: 9}` with no
inconsistencies. -/
theorem c6_compare_opcodes_witness :
    (extractAllInstructions (protoWithCode [5])).length =
      (extractAllInstructions (protoWithCode [9])).length ∧
    compareOpcodes (protoWithCode [5]) (protoWithCode [9]) = .ok ([(5, 9)], []) :=
  ⟨by decide,
   (c6_compare_opcodes.2.1 (protoWithCode [5]) (protoWithCode [9]) (by decide)).trans (by decide)⟩

/-! ## Error propagation and resource bounds (C3, C7, C8) -/

/-- C3 (counterexample): a LuaJIT buffer with a valid header followed by
a prototype-size varint cut off mid-group (`0x80` then end of input)
does not surface any error: `parse` catches the nested failure and
returns an empty prototype list. -/
theorem c3_truncated_luajit_counterexample :
    ljParse [0x1B, 0x4C, 0x4A, 1, 2, 0x80] =
      .ok ({ version := 1, flags := 2, sourceName := [] }, []) := by
  decide

theorem readSizeAux_all_cont (s : Bytes) : ∀ x : Nat, (∀ b ∈ s, b &&& 0x80 = 0) →
    (x + 1) * 128 ^ s.length ≤ sizeLimit → readSizeAux s x = .error .truncated := by
  induction s with
  | nil => intro x _ _; rfl
  | cons b r ih =>
    intro x hb hx
    have hb0 : b &&& 0x80 = 0 := hb b (by simp)
    have hxlt : ¬ sizeLimit ≤ x := by
      have h1 : (1 : Nat) ≤ 128 ^ (b :: r).length := Nat.one_le_pow _ _ (by norm_num)
      have h2 : x + 1 ≤ (x + 1) * 128 ^ (b :: r).length := Nat.le_mul_of_pos_right _ (by positivity)
      omega
    have hrec : (x * 128 + (b &&& 0x7F) + 1) * 128 ^ r.length ≤ sizeLimit := by
      have hlt : b &&& 0x7F < 128 := and7F_lt b
      have hle : (x * 128 + (b &&& 0x7F) + 1) ≤ (x + 1) * 128 := by omega
      calc (x * 128 + (b &&& 0x7F) + 1) * 128 ^ r.length
          ≤ ((x + 1) * 128) * 128 ^ r.length := Nat.mul_le_mul_right _ hle
      _ = (x + 1) * 128 ^ (r.length + 1) := by ring
      _ ≤ sizeLimit := by simpa using hx
    simp only [readSizeAux, if_neg hxlt, hb0, ne_eq, not_true_eq_false, if_false,
      ite_false]
    rw [ih (x * 128 + (b &&& 0x7F)) (fun d hd => hb d (by simp [hd])) hrec]

theorem readSizeRaw_truncated_mid_varint (s : Bytes) (hc : ∀ b ∈ s, b &&& 0x80 = 0)
    (hl : s.length ≤ 8) : readSizeRaw s = .error .truncated := by
  apply readSizeAux_all_cont s 0 hc
  have h1 : (128 : Nat) ^ s.length ≤ 128 ^ 8 := Nat.pow_le_pow_right (by norm_num) hl
  have h2 : (128 : Nat) ^ 8 ≤ sizeLimit := by decide
  omega

/-- C3 (amended): once the LuaJIT header has been read, `parse` never
surfaces an error: the prototype loop catches every nested decode
failure and returns the prototypes accumulated so far.  In the Lua 5.4
decoder a count varint cut off mid-group (every byte a continuation
byte, here up to 8 of them so the overflow guard cannot fire first) does
raise the truncated-read error, which propagates. -/
theorem c3_error_swallowing_amended :
    (∀ (data : Bytes) (h : LJHeader) (s : Bytes), ljReadHeader data = .ok (h, s) →
      ljParse data = .ok (h, ljParseLoopF h.flags (s.length + 1) s)) ∧
    (∀ s : Bytes, (∀ b ∈ s, b &&& 0x80 = 0) → s.length ≤ 8 →
      readSizeRaw s = .error .truncated) := by
  constructor
  · intro data h s hh
    simp [ljParse, hh, bind, Except.bind]
  · exact readSizeRaw_truncated_mid_varint

/-- Witness for C3's amended statement on a stripped LuaJIT header with
trailing byte `9`, and on the truncated count varint `[0x00, 0x7F]`. -/
theorem c3_error_swallowing_amended_witness :
    (ljReadHeader [0x1B, 0x4C, 0x4A, 1, 2, 9] =
        .ok ({ version := 1, flags := 2, sourceName := [] }, [9]) ∧
      ljParse [0x1B, 0x4C, 0x4A, 1, 2, 9] =
        .ok ({ version := 1, flags := 2, sourceName := [] },
          ljParseLoopF 2 (([9] : Bytes).length + 1) [9])) ∧
    ((∀ b ∈ ([0x00, 0x7F] : Bytes), b &&& 0x80 = 0) ∧ ([0x00, 0x7F] : Bytes).length ≤ 8 ∧
      readSizeRaw [0x00, 0x7F] = .error .truncated) :=
  ⟨⟨by decide, c3_error_swallowing_amended.1 [0x1B, 0x4C, 0x4A, 1, 2, 9] _ [9] (by decide)⟩,
   ⟨by decide, by decide, c3_error_swallowing_amended.2 [0x00, 0x7F] (by decide) (by decide)⟩⟩

/-- C8 (counterexample): a buffer whose header test integer and test
float bytes are all zero (instead of `0x5678` and `370.5`) decodes
without any error; the decoded test integer is `0`, not the reference
value. -/
theorem c8_testvalue_counterexample :
    (match parseLuac zeroTestValueBuf with
      | .ok (h, _, _, _) => some h.testInt
      | .error _ => Option.none) = some 0 ∧ (0 : Int) ≠ 0x5678 := by
  constructor
  · decide
  · decide

/-- C8 (amended): after the signature and version byte, `check_header`
validates nothing: whatever bytes follow (format byte, `LUAC_DATA`
bytes, type sizes, test integer and test float) are read and returned
unchecked. -/
theorem c8_header_unchecked (f d0 d1 d2 d3 d4 d5 i1 i2 i3
    t0 t1 t2 t3 t4 t5 t6 t7 n0 n1 n2 n3 n4 n5 n6 n7 : Nat) (rest : Bytes) :
    checkHeader (LUA_SIGNATURE ++ [LUAC_VERSION, f, d0, d1, d2, d3, d4, d5, i1, i2, i3,
        t0, t1, t2, t3, t4, t5, t6, t7, n0, n1, n2, n3, n4, n5, n6, n7] ++ rest) =
      .ok ({ formatByte := f, luacData := [d0, d1, d2, d3, d4, d5],
             instSize := i1, intSize := i2, numSize := i3,
             testInt := toSigned64 (leNat [t0, t1, t2, t3, t4, t5, t6, t7]),
             testIntRaw := [t0, t1, t2, t3, t4, t5, t6, t7],
             testNum := leNat [n0, n1, n2, n3, n4, n5, n6, n7],
             testNumRaw := [n0, n1, n2, n3, n4, n5, n6, n7] }, rest) := rfl

/-- C7 (counterexample): no length ceiling exists.  A string whose size
varint claims 1000 (999 content bytes) is read from a buffer holding
only 3 content bytes and succeeds silently with the short string; an
instruction count of 5 over a buffer holding one instruction fails only
with the truncated struct-read error, not any count-check error. -/
theorem c7_no_ceiling_counterexample :
    readStringRaw [0x07, 0xE8, 65, 66, 67] =
      .ok (some [65, 66, 67], [0x07, 0xE8, 65, 66, 67], []) ∧
    readGroup readInstElem [0x85, 81, 0, 0, 0] = .error .truncated := by
  constructor
  · decide
  · decide

theorem readListN_inst_truncated : ∀ (n : Nat) (s : Bytes), s.length < 4 * n →
    readListN readInstElem n s = .error .truncated := by
  intro n
  induction n with
  | zero => intro s h; omega
  | succ m ih =>
    intro s h
    by_cases hs : s.length < 4
    · simp [readListN, readInstElem, hs, bind, Except.bind]
    · have hrec := ih (s.drop 4) (by simp [List.length_drop]; omega)
      simp [readListN, readInstElem, hs, bind, Except.bind, hrec]

/-- C7 (amended): the decoder applies no configurable ceiling to any
length or count.  An oversized string length succeeds silently with
whatever bytes remain (`file.read` just returns fewer bytes); an
oversized instruction count fails only later, as a truncated
4-byte-read error; and the only built-in bound is the hard-coded
`2^57` overflow guard inside the varint decoder. -/
theorem c7_no_ceiling_amended :
    (∀ (v : Nat) (s : Bytes), 0 < v → v < 2 ^ 64 → s.length ≤ v - 1 →
      readStringRaw (writeSize v ++ s) =
        .ok (some (utf8DecodeReplace s), writeSize v ++ s, [])) ∧
    (∀ (n : Nat) (s : Bytes), s.length < 4 * n →
      readListN readInstElem n s = .error .truncated) ∧
    (∀ (b : Nat) (r : Bytes) (x : Nat), sizeLimit ≤ x →
      readSizeAux (b :: r) x = .error .overflow) := by
  refine ⟨?_, readListN_inst_truncated, fun b r x hx => by simp [readSizeAux, hx]⟩
  intro v s hv hv64 hl
  simp only [readStringRaw, readSizeRaw_writeSize v hv64 s]
  rw [if_neg (by omega : ¬ v = 0)]
  rw [List.take_of_length_le (by omega), List.drop_of_length_le (by omega)]

/-- Witness for C7's amended statement: declared string size 1000 over a
3-byte remainder, instruction count 5 over a 4-byte remainder, and the
overflow guard at accumulator `2^57`. -/
theorem c7_no_ceiling_amended_witness :
    ((0 : Nat) < 1000 ∧ (1000 : Nat) < 2 ^ 64 ∧ ([65, 66, 67] : Bytes).length ≤ 1000 - 1 ∧
      readStringRaw (writeSize 1000 ++ [65, 66, 67]) =
        .ok (some (utf8DecodeReplace [65, 66, 67]), writeSize 1000 ++ [65, 66, 67], [])) ∧
    (([81, 0, 0, 0] : Bytes).length < 4 * 5 ∧
      readListN readInstElem 5 [81, 0, 0, 0] = .error .truncated) ∧
    (sizeLimit ≤ 2 ^ 57 ∧ readSizeAux [0] (2 ^ 57) = .error .overflow) :=
  ⟨⟨by norm_num, by norm_num, by decide,
      c7_no_ceiling_amended.1 1000 [65, 66, 67] (by norm_num) (by norm_num) (by decide)⟩,
   ⟨by decide, c7_no_ceiling_amended.2.1 5 [81, 0, 0, 0] (by decide)⟩,
   ⟨by decide, c7_no_ceiling_amended.2.2 0 [] (2 ^ 57) (by decide)⟩⟩

/-! ## C1: parse/write round trip

Span lemmas: every reader's successful result satisfies
input = captured raw span ++ rest.  They combine into `readProtoF_write`:
under `protoCanon` the writer reproduces a prototype's entire consumed
span, and with `checkHeader_span` the full file. -/

theorem readByteRaw_ok {s : Bytes} {v : Nat} {raw rest : Bytes}
    (h : readByteRaw s = .ok (v, raw, rest)) : raw = [v] ∧ s = v :: rest := by
  cases s with
  | nil => simp [readByteRaw] at h
  | cons b r =>
    simp only [readByteRaw, Except.ok.injEq, Prod.mk.injEq] at h
    obtain ⟨h1, h2, h3⟩ := h
    subst h1; subst h2; subst h3
    exact ⟨rfl, rfl⟩

theorem readSizeAux_span : ∀ {s : Bytes} {x v : Nat} {raw rest : Bytes},
    readSizeAux s x = .ok (v, raw, rest) → s = raw ++ rest := by
  intro s
  induction s with
  | nil => intro x v raw rest h; simp [readSizeAux] at h
  | cons b r ih =>
    intro x v raw rest h
    simp only [readSizeAux] at h
    by_cases hx : sizeLimit ≤ x
    · simp [hx] at h
    · rw [if_neg hx] at h
      by_cases hb : b &&& 0x80 ≠ 0
      · rw [if_pos hb] at h
        simp only [Except.ok.injEq, Prod.mk.injEq] at h
        obtain ⟨_, h2, h3⟩ := h
        subst h2; subst h3
        rfl
      · rw [if_neg hb] at h
        cases hrec : readSizeAux r (x * 0x80 + (b &&& 0x7F)) with
        | error e => rw [hrec] at h; simp at h
        | ok t =>
          rw [hrec] at h
          obtain ⟨v2, raw2, rest2⟩ := t
          simp only [Except.ok.injEq, Prod.mk.injEq] at h
          obtain ⟨_, h2, h3⟩ := h
          subst h2; subst h3
          have := ih hrec
          simp [this]

theorem readSizeRaw_span {s : Bytes} {v : Nat} {raw rest : Bytes}
    (h : readSizeRaw s = .ok (v, raw, rest)) : s = raw ++ rest :=
  readSizeAux_span h

theorem readIntegerRaw_span {s : Bytes} {v : Int} {raw rest : Bytes}
    (h : readIntegerRaw s = .ok (v, raw, rest)) : s = raw ++ rest := by
  simp only [readIntegerRaw, List.length_take] at h
  by_cases hl : s.length < 8
  · simp [hl] at h
  · rw [if_neg (by simpa using hl)] at h
    simp only [Except.ok.injEq, Prod.mk.injEq] at h
    obtain ⟨_, h2, h3⟩ := h
    subst h2; subst h3
    exact (List.take_append_drop 8 s).symm

theorem readNumberRaw_span {s : Bytes} {v : Nat} {raw rest : Bytes}
    (h : readNumberRaw s = .ok (v, raw, rest)) : s = raw ++ rest := by
  simp only [readNumberRaw, List.length_take] at h
  by_cases hl : s.length < 8
  · simp [hl] at h
  · rw [if_neg (by simpa using hl)] at h
    simp only [Except.ok.injEq, Prod.mk.injEq] at h
    obtain ⟨_, h2, h3⟩ := h
    subst h2; subst h3
    exact (List.take_append_drop 8 s).symm

theorem readStringRaw_span {s : Bytes} {v : Option (List Nat)} {raw rest : Bytes}
    (h : readStringRaw s = .ok (v, raw, rest)) : s = raw ++ rest := by
  simp only [readStringRaw] at h
  cases hsz : readSizeRaw s with
  | error e => rw [hsz] at h; simp at h
  | ok t =>
    rw [hsz] at h
    obtain ⟨size, sraw, r⟩ := t
    simp only [] at h
    have hspan := readSizeRaw_span hsz
    by_cases h0 : size = 0
    · rw [if_pos h0] at h
      simp only [Except.ok.injEq, Prod.mk.injEq] at h
      obtain ⟨_, h2, h3⟩ := h
      subst h2; subst h3
      exact hspan
    · rw [if_neg h0] at h
      simp only [Except.ok.injEq, Prod.mk.injEq] at h
      obtain ⟨_, h2, h3⟩ := h
      subst h2; subst h3
      rw [hspan, List.append_assoc, List.take_append_drop]

theorem readListN_span {rd : Bytes → Except PErr ((α × Bytes) × Bytes)} (hrd : SpanRd rd) :
    ∀ {n : Nat} {s : Bytes} {xs : List (α × Bytes)} {rest : Bytes},
      readListN rd n s = .ok (xs, rest) → s = rawsOf xs ++ rest := by
  intro n
  induction n with
  | zero =>
    intro s xs rest h
    simp only [readListN, Except.ok.injEq, Prod.mk.injEq] at h
    obtain ⟨h1, h2⟩ := h
    subst h1; subst h2
    simp [rawsOf]
  | succ m ih =>
    intro s xs rest h
    simp only [readListN, bind, Except.bind] at h
    cases h1 : rd s with
    | error e => rw [h1] at h; simp at h
    | ok t1 =>
      rw [h1] at h
      obtain ⟨⟨v1, raw1⟩, s1⟩ := t1
      simp only [] at h
      cases h2 : readListN rd m s1 with
      | error e => rw [h2] at h; simp at h
      | ok t2 =>
        rw [h2] at h
        obtain ⟨xs2, s2⟩ := t2
        simp only [Except.ok.injEq, Prod.mk.injEq] at h
        obtain ⟨h3, h4⟩ := h
        subst h3; subst h4
        rw [hrd h1, ih h2]
        simp [rawsOf]

theorem readGroup_span {rd : Bytes → Except PErr ((α × Bytes) × Bytes)} (hrd : SpanRd rd)
    {s : Bytes} {vals : List α} {raw rest : Bytes}
    (h : readGroup rd s = .ok ((vals, raw), rest)) : s = raw ++ rest := by
  simp only [readGroup, bind, Except.bind] at h
  cases h1 : readSizeRaw s with
  | error e => rw [h1] at h; simp at h
  | ok t1 =>
    rw [h1] at h
    obtain ⟨n, nraw, s1⟩ := t1
    simp only [] at h
    cases h2 : readListN rd n s1 with
    | error e => rw [h2] at h; simp at h
    | ok t2 =>
      rw [h2] at h
      obtain ⟨xs, s2⟩ := t2
      simp only [Except.ok.injEq, Prod.mk.injEq] at h
      obtain ⟨⟨h3, h4⟩, h5⟩ := h
      subst h4; subst h5
      rw [readSizeRaw_span h1, readListN_span hrd h2]
      simp

theorem readInstElem_span : SpanRd readInstElem := by
  intro s v raw rest h
  simp only [readInstElem, List.length_take] at h
  by_cases hl : s.length < 4
  · simp [hl] at h
  · rw [if_neg (by simpa using hl)] at h
    simp only [Except.ok.injEq, Prod.mk.injEq] at h
    obtain ⟨⟨_, h2⟩, h3⟩ := h
    subst h2; subst h3
    exact (List.take_append_drop 4 s).symm

theorem readByteRaw_pair_span {s : Bytes} {v : Nat} {raw rest : Bytes}
    (h : readByteRaw s = .ok (v, raw, rest)) : s = raw ++ rest := by
  obtain ⟨h1, h2⟩ := readByteRaw_ok h
  rw [h1, h2]; rfl

theorem readUpvalueElem_span : SpanRd readUpvalueElem := by
  intro s v raw rest h
  simp only [readUpvalueElem, bind, Except.bind] at h
  cases h1 : readByteRaw s with
  | error e => rw [h1] at h; simp at h
  | ok t1 =>
    rw [h1] at h
    obtain ⟨b1, r1, s1⟩ := t1
    simp only [] at h
    cases h2 : readByteRaw s1 with
    | error e => rw [h2] at h; simp at h
    | ok t2 =>
      rw [h2] at h
      obtain ⟨b2, r2, s2⟩ := t2
      simp only [] at h
      cases h3 : readByteRaw s2 with
      | error e => rw [h3] at h; simp at h
      | ok t3 =>
        rw [h3] at h
        obtain ⟨b3, r3, s3⟩ := t3
        simp only [Except.ok.injEq, Prod.mk.injEq] at h
        obtain ⟨⟨_, h4⟩, h5⟩ := h
        subst h4; subst h5
        rw [readByteRaw_pair_span h1, readByteRaw_pair_span h2, readByteRaw_pair_span h3]
        simp

theorem readLineElem_span : SpanRd readLineElem := by
  intro s v raw rest h
  simp only [readLineElem, bind, Except.bind] at h
  cases h1 : readByteRaw s with
  | error e => rw [h1] at h; simp at h
  | ok t1 =>
    rw [h1] at h
    obtain ⟨b1, r1, s1⟩ := t1
    simp only [Except.ok.injEq, Prod.mk.injEq] at h
    obtain ⟨⟨_, h4⟩, h5⟩ := h
    subst h4; subst h5
    exact readByteRaw_pair_span h1

theorem readAbsLineElem_span : SpanRd readAbsLineElem := by
  intro s v raw rest h
  simp only [readAbsLineElem, bind, Except.bind] at h
  cases h1 : readSizeRaw s with
  | error e => rw [h1] at h; simp at h
  | ok t1 =>
    rw [h1] at h
    obtain ⟨n1, r1, s1⟩ := t1
    simp only [] at h
    cases h2 : readSizeRaw s1 with
    | error e => rw [h2] at h; simp at h
    | ok t2 =>
      rw [h2] at h
      obtain ⟨n2, r2, s2⟩ := t2
      simp only [Except.ok.injEq, Prod.mk.injEq] at h
      obtain ⟨⟨_, h4⟩, h5⟩ := h
      subst h4; subst h5
      rw [readSizeRaw_span h1, readSizeRaw_span h2]
      simp

theorem readLocVarElem_span : SpanRd readLocVarElem := by
  intro s v raw rest h
  simp only [readLocVarElem, bind, Except.bind] at h
  cases h1 : readStringRaw s with
  | error e => rw [h1] at h; simp at h
  | ok t1 =>
    rw [h1] at h
    obtain ⟨n1, r1, s1⟩ := t1
    simp only [] at h
    cases h2 : readSizeRaw s1 with
    | error e => rw [h2] at h; simp at h
    | ok t2 =>
      rw [h2] at h
      obtain ⟨n2, r2, s2⟩ := t2
      simp only [] at h
      cases h3 : readSizeRaw s2 with
      | error e => rw [h3] at h; simp at h
      | ok t3 =>
        rw [h3] at h
        obtain ⟨n3, r3, s3⟩ := t3
        simp only [Except.ok.injEq, Prod.mk.injEq] at h
        obtain ⟨⟨_, h4⟩, h5⟩ := h
        subst h4; subst h5
        rw [readStringRaw_span h1, readSizeRaw_span h2, readSizeRaw_span h3]
        simp

theorem readUpvalNameElem_span : SpanRd readUpvalNameElem := by
  intro s v raw rest h
  simp only [readUpvalNameElem, bind, Except.bind] at h
  cases h1 : readStringRaw s with
  | error e => rw [h1] at h; simp at h
  | ok t1 =>
    rw [h1] at h
    obtain ⟨n1, r1, s1⟩ := t1
    simp only [Except.ok.injEq, Prod.mk.injEq] at h
    obtain ⟨⟨_, h4⟩, h5⟩ := h
    subst h4; subst h5
    exact readStringRaw_span h1

theorem readConstElem_span : SpanRd readConstElem := by
  intro s v raw rest h
  simp only [readConstElem, bind, Except.bind] at h
  cases h1 : readByteRaw s with
  | error e => rw [h1] at h; simp at h
  | ok t1 =>
    rw [h1] at h
    obtain ⟨t, tRaw, s1⟩ := t1
    simp only [] at h
    have hspan1 := readByteRaw_pair_span h1
    split at h
    · simp only [Except.ok.injEq, Prod.mk.injEq] at h
      obtain ⟨⟨_, h4⟩, h5⟩ := h; subst h4; subst h5; exact hspan1
    · split at h
      · simp only [Except.ok.injEq, Prod.mk.injEq] at h
        obtain ⟨⟨_, h4⟩, h5⟩ := h; subst h4; subst h5; exact hspan1
      · split at h
        · simp only [Except.ok.injEq, Prod.mk.injEq] at h
          obtain ⟨⟨_, h4⟩, h5⟩ := h; subst h4; subst h5; exact hspan1
        · split at h
          · cases h2 : readNumberRaw s1 with
            | error e => rw [h2] at h; simp at h
            | ok t2 =>
              rw [h2] at h
              obtain ⟨x2, r2, s2⟩ := t2
              simp only [Except.ok.injEq, Prod.mk.injEq] at h
              obtain ⟨⟨_, h4⟩, h5⟩ := h; subst h4; subst h5
              rw [hspan1, readNumberRaw_span h2]; simp
          · split at h
            · cases h2 : readIntegerRaw s1 with
              | error e => rw [h2] at h; simp at h
              | ok t2 =>
                rw [h2] at h
                obtain ⟨x2, r2, s2⟩ := t2
                simp only [Except.ok.injEq, Prod.mk.injEq] at h
                obtain ⟨⟨_, h4⟩, h5⟩ := h; subst h4; subst h5
                rw [hspan1, readIntegerRaw_span h2]; simp
            · split at h
              · cases h2 : readStringRaw s1 with
                | error e => rw [h2] at h; simp at h
                | ok t2 =>
                  rw [h2] at h
                  obtain ⟨x2, r2, s2⟩ := t2
                  simp only [Except.ok.injEq, Prod.mk.injEq] at h
                  obtain ⟨⟨_, h4⟩, h5⟩ := h; subst h4; subst h5
                  rw [hspan1, readStringRaw_span h2]; simp
              · split at h
                · simp only [Except.ok.injEq, Prod.mk.injEq] at h
                  obtain ⟨⟨_, h4⟩, h5⟩ := h; subst h4; subst h5; exact hspan1
                · split at h
                  · split at h
                    · cases h2 : readNumberRaw s1 with
                      | error e => rw [h2] at h; simp at h
                      | ok t2 =>
                        rw [h2] at h
                        obtain ⟨x2, r2, s2⟩ := t2
                        simp only [Except.ok.injEq, Prod.mk.injEq] at h
                        obtain ⟨⟨_, h4⟩, h5⟩ := h; subst h4; subst h5
                        rw [hspan1, readNumberRaw_span h2]; simp
                    · cases h2 : readIntegerRaw s1 with
                      | error e => rw [h2] at h; simp at h
                      | ok t2 =>
                        rw [h2] at h
                        obtain ⟨x2, r2, s2⟩ := t2
                        simp only [Except.ok.injEq, Prod.mk.injEq] at h
                        obtain ⟨⟨_, h4⟩, h5⟩ := h; subst h4; subst h5
                        rw [hspan1, readIntegerRaw_span h2]; simp
                  · split at h
                    · cases h2 : readStringRaw s1 with
                      | error e => rw [h2] at h; simp at h
                      | ok t2 =>
                        rw [h2] at h
                        obtain ⟨x2, r2, s2⟩ := t2
                        simp only [Except.ok.injEq, Prod.mk.injEq] at h
                        obtain ⟨⟨_, h4⟩, h5⟩ := h; subst h4; subst h5
                        rw [hspan1, readStringRaw_span h2]; simp
                    · simp at h

theorem readDebugGroup_span {s : Bytes}
    {dbg : List Nat × List AbsLineInfo × List LocVar × List (Option (List Nat))}
    {dbgRaw rest : Bytes}
    (h : readDebugGroup s = .ok (dbg, dbgRaw, rest)) : s = dbgRaw ++ rest := by
  simp only [readDebugGroup, bind, Except.bind] at h
  cases h1 : readGroup readLineElem s with
  | error e => rw [h1] at h; simp at h
  | ok t1 =>
    rw [h1] at h
    obtain ⟨⟨v1, r1⟩, s1⟩ := t1
    simp only [] at h
    cases h2 : readGroup readAbsLineElem s1 with
    | error e => rw [h2] at h; simp at h
    | ok t2 =>
      rw [h2] at h
      obtain ⟨⟨v2, r2⟩, s2⟩ := t2
      simp only [] at h
      cases h3 : readGroup readLocVarElem s2 with
      | error e => rw [h3] at h; simp at h
      | ok t3 =>
        rw [h3] at h
        obtain ⟨⟨v3, r3⟩, s3⟩ := t3
        simp only [] at h
        cases h4 : readGroup readUpvalNameElem s3 with
        | error e => rw [h4] at h; simp at h
        | ok t4 =>
          rw [h4] at h
          obtain ⟨⟨v4, r4⟩, s4⟩ := t4
          simp only [Except.ok.injEq, Prod.mk.injEq] at h
          obtain ⟨_, h5, h6⟩ := h
          subst h5; subst h6
          rw [readGroup_span readLineElem_span h1,
              readGroup_span readAbsLineElem_span h2,
              readGroup_span readLocVarElem_span h3,
              readGroup_span readUpvalNameElem_span h4]
          simp

theorem debugQuarters_append (raw : Bytes) :
    (debugQuarters raw).1 ++ (debugQuarters raw).2.1 ++ (debugQuarters raw).2.2.1 ++
      (debugQuarters raw).2.2.2 = raw := by
  simp only [debugQuarters]
  have h1 : raw.take (raw.length / 4) ++ (raw.drop (raw.length / 4)).take
      (raw.length / 2 - raw.length / 4) = raw.take (raw.length / 2) := by
    rw [← List.take_add]
    congr 1
    omega
  have h2 : raw.take (raw.length / 2) ++ (raw.drop (raw.length / 2)).take
      (3 * raw.length / 4 - raw.length / 2) = raw.take (3 * raw.length / 4) := by
    rw [← List.take_add]
    congr 1
    omega
  rw [List.append_assoc _ _ ((raw.drop (3 * raw.length / 4)))]
  rw [h1]
  rw [← List.append_assoc, h2]
  exact List.take_append_drop _ raw

theorem checkHeader_span {s : Bytes} {hd : HeaderInfo} {rest : Bytes}
    (h : checkHeader s = .ok (hd, rest)) (hc : headerCanon hd = true) :
    s = writeHeader ++ rest := by
  simp only [headerCanon, Bool.and_eq_true, beq_iff_eq] at hc
  obtain ⟨⟨⟨⟨⟨⟨hfmt, hdata⟩, hinst⟩, hint⟩, hnum⟩, hti⟩, htn⟩ := hc
  simp only [checkHeader, bind, Except.bind, pure, Except.pure] at h
  by_cases hsig : s.take 4 = LUA_SIGNATURE
  · rw [if_neg (not_not_intro hsig)] at h
    cases h1 : readByteRaw (s.drop 4) with
    | error e => rw [h1] at h; simp at h
    | ok t1 =>
      rw [h1] at h
      obtain ⟨version, vr, s1⟩ := t1
      simp only [] at h
      by_cases hver : version = LUAC_VERSION
      · rw [if_neg (not_not_intro hver)] at h
        cases h2 : readByteRaw s1 with
        | error e => rw [h2] at h; simp at h
        | ok t2 =>
          rw [h2] at h
          obtain ⟨fmtb, fr, s2⟩ := t2
          simp only [] at h
          cases h3 : readByteRaw (s2.drop 6) with
          | error e => rw [h3] at h; simp at h
          | ok t3 =>
            rw [h3] at h
            obtain ⟨isz, ir, s3⟩ := t3
            simp only [] at h
            cases h4 : readByteRaw s3 with
            | error e => rw [h4] at h; simp at h
            | ok t4 =>
              rw [h4] at h
              obtain ⟨nsz, nr, s4⟩ := t4
              simp only [] at h
              cases h5 : readByteRaw s4 with
              | error e => rw [h5] at h; simp at h
              | ok t5 =>
                rw [h5] at h
                obtain ⟨fsz, fr2, s5⟩ := t5
                simp only [] at h
                cases h6 : readIntegerRaw s5 with
                | error e => rw [h6] at h; simp at h
                | ok t6 =>
                  rw [h6] at h
                  obtain ⟨ti, tir, s6⟩ := t6
                  simp only [] at h
                  cases h7 : readNumberRaw s6 with
                  | error e => rw [h7] at h; simp at h
                  | ok t7 =>
                    rw [h7] at h
                    obtain ⟨tn, tnr, s7⟩ := t7
                    simp only [Except.ok.injEq, Prod.mk.injEq] at h
                    obtain ⟨hhd, hrest⟩ := h
                    subst hrest
                    subst hhd
                    simp only [] at hfmt hdata hinst hint hnum hti htn
                    obtain ⟨hvr, hs1⟩ := readByteRaw_ok h1
                    obtain ⟨hfr, hs2⟩ := readByteRaw_ok h2
                    obtain ⟨hir, hs3⟩ := readByteRaw_ok h3
                    obtain ⟨hnr, hs4⟩ := readByteRaw_ok h4
                    obtain ⟨hfr2, hs5⟩ := readByteRaw_ok h5
                    have hs6 := readIntegerRaw_span h6
                    have hs7 := readNumberRaw_span h7
                    have hsplit4 : s = s.take 4 ++ s.drop 4 :=
                      (List.take_append_drop 4 s).symm
                    have hsplit6 : s2 = s2.take 6 ++ s2.drop 6 :=
                      (List.take_append_drop 6 s2).symm
                    rw [hsplit4, hsig, hs1, hs2, hsplit6, hdata, hs3, hs4, hs5,
                        hs6, hs7, hver, hfmt, hinst, hint, hnum, hti, htn]
                    simp [writeHeader, LUAC_VERSION, LUAC_FORMAT]
      · rw [if_pos hver] at h
        simp at h
  · rw [if_pos hsig] at h
    simp at h

theorem readListN_proto_write (fuel : Nat)
    (IH : ∀ (src : List Nat) (s : Bytes) (p : Proto) (rest : Bytes),
        readProtoF fuel src s = .ok (p, rest) → protoCanon false p = true →
        writeProto false p ++ rest = s)
    (src : List Nat) :
    ∀ (n : Nat) (s : Bytes) (subs : List Proto) (rest : Bytes),
      readListN (fun s2 => readProtoF fuel src s2) n s = .ok (subs, rest) →
      protoCanonList (ProtoList.ofList subs) = true →
      writeProtoList (ProtoList.ofList subs) ++ rest = s := by
  intro n
  induction n with
  | zero =>
    intro s subs rest h hc
    simp only [readListN, Except.ok.injEq, Prod.mk.injEq] at h
    obtain ⟨h1, h2⟩ := h
    subst h1; subst h2
    simp [ProtoList.ofList, writeProtoList]
  | succ m ih =>
    intro s subs rest h hc
    simp only [readListN, bind, Except.bind] at h
    cases h1 : readProtoF fuel src s with
    | error e => rw [h1] at h; simp at h
    | ok t1 =>
      rw [h1] at h
      obtain ⟨p, s1⟩ := t1
      simp only [] at h
      cases h2 : readListN (fun s2 => readProtoF fuel src s2) m s1 with
      | error e => rw [h2] at h; simp at h
      | ok t2 =>
        rw [h2] at h
        obtain ⟨ps, s2⟩ := t2
        simp only [Except.ok.injEq, Prod.mk.injEq] at h
        obtain ⟨h3, h4⟩ := h
        subst h3; subst h4
        simp only [ProtoList.ofList, protoCanonList, Bool.and_eq_true] at hc
        obtain ⟨hcp, hcl⟩ := hc
        simp only [ProtoList.ofList, writeProtoList]
        rw [List.append_assoc, ih _ _ _ h2 hcl]
        exact IH _ _ _ _ h1 hcp

theorem readProtoF_write :
    ∀ (fuel : Nat) (src : List Nat) (s : Bytes) (p : Proto) (rest : Bytes) (isMain : Bool),
      readProtoF fuel src s = .ok (p, rest) → protoCanon isMain p = true →
      writeProto isMain p ++ rest = s := by
  intro fuel
  induction fuel with
  | zero =>
    intro src s p rest isMain h hc
    simp [readProtoF] at h
  | succ f ih =>
    intro src s p rest isMain h hc
    simp only [readProtoF, bind, Except.bind] at h
    cases h1 : readStringRaw s with
    | error e => rw [h1] at h; simp at h
    | ok t1 =>
    rw [h1] at h
    obtain ⟨srcOpt, srcRaw, s1⟩ := t1
    simp only [] at h
    cases h2 : readSizeRaw s1 with
    | error e => rw [h2] at h; simp at h
    | ok t2 =>
    rw [h2] at h
    obtain ⟨ld, ldRaw, s2⟩ := t2
    simp only [] at h
    cases h3 : readSizeRaw s2 with
    | error e => rw [h3] at h; simp at h
    | ok t3 =>
    rw [h3] at h
    obtain ⟨lld, lldRaw, s3⟩ := t3
    simp only [] at h
    cases h4 : readByteRaw s3 with
    | error e => rw [h4] at h; simp at h
    | ok t4 =>
    rw [h4] at h
    obtain ⟨np, npRaw, s4⟩ := t4
    simp only [] at h
    cases h5 : readByteRaw s4 with
    | error e => rw [h5] at h; simp at h
    | ok t5 =>
    rw [h5] at h
    obtain ⟨va, vaRaw, s5⟩ := t5
    simp only [] at h
    cases h6 : readByteRaw s5 with
    | error e => rw [h6] at h; simp at h
    | ok t6 =>
    rw [h6] at h
    obtain ⟨mss, mssRaw, s6⟩ := t6
    simp only [] at h
    cases h7 : readGroup readInstElem s6 with
    | error e => rw [h7] at h; simp at h
    | ok t7 =>
    rw [h7] at h
    obtain ⟨⟨code, codeRaw⟩, s7⟩ := t7
    simp only [] at h
    cases h8 : readGroup readConstElem s7 with
    | error e => rw [h8] at h; simp at h
    | ok t8 =>
    rw [h8] at h
    obtain ⟨⟨consts, constRaw⟩, s8⟩ := t8
    simp only [] at h
    cases h9 : readGroup readUpvalueElem s8 with
    | error e => rw [h9] at h; simp at h
    | ok t9 =>
    rw [h9] at h
    obtain ⟨⟨upvs, upvRaw⟩, s9⟩ := t9
    simp only [] at h
    cases h10 : readSizeRaw s9 with
    | error e => rw [h10] at h; simp at h
    | ok t10 =>
    rw [h10] at h
    obtain ⟨nProtos, protosRaw, s10⟩ := t10
    simp only [] at h
    split at h
    · simp at h
    next t11 h11 =>
    obtain ⟨subs, s11⟩ := t11
    simp only [] at h
    split at h
    · simp at h
    next t12 h12 =>
    obtain ⟨⟨li, ali, lv, uvn⟩, dbgRaw, s12⟩ := t12
    simp only [] at h
    rcases hq : debugQuarters dbgRaw with ⟨q1, q2, q3, q4⟩
    rw [hq] at h
    simp only [] at h
    simp only [Except.ok.injEq, Prod.mk.injEq] at h
    obtain ⟨hp, hrest⟩ := h
    subst hrest
    subst hp
    simp only [protoCanon, Bool.and_eq_true, beq_iff_eq] at hc
    obtain ⟨⟨⟨⟨⟨⟨⟨hcsrc, hcld⟩, hclld⟩, hcconst⟩, hcupv⟩, hcprotos⟩, hcdbg⟩, hclist⟩ := hc
    have hdbgEq : writeDebug li ali lv uvn = dbgRaw := by
      rw [hcdbg]
      have := debugQuarters_append dbgRaw
      rw [hq] at this
      exact this
    have hsubs : writeProtoList (ProtoList.ofList subs) ++ s11 = s10 :=
      readListN_proto_write f
        (fun src2 s2 p2 rest2 hh hcc => ih src2 s2 p2 rest2 false hh hcc)
        _ _ _ _ _ h11 hclist
    simp only [writeProto]
    rw [readStringRaw_span h1, readSizeRaw_span h2, readSizeRaw_span h3]
    obtain ⟨hnpr, hs4⟩ := readByteRaw_ok h4
    obtain ⟨hvar, hs5⟩ := readByteRaw_ok h5
    obtain ⟨hmsr, hs6⟩ := readByteRaw_ok h6
    rw [hs4, hs5, hs6]
    rw [readGroup_span readInstElem_span h7, readGroup_span readConstElem_span h8,
        readGroup_span readUpvalueElem_span h9, readSizeRaw_span h10,
        ← hsubs, readDebugGroup_span h12]
    rw [hcsrc, hcld, hclld, hcconst, hcupv, hcprotos, hdbgEq]
    simp

/-- C1 (counterexample): re-encoding is not the identity on all accepted
buffers.  The format byte is read but never validated and `_write_header`
emits the fixed constant header, so a buffer whose format byte is `1`
parses successfully yet re-encodes to a different byte string (the same
buffer with format byte `0`). -/
theorem c1_roundtrip_counterexample :
    parseThenWrite format1Buf = some c1Buf ∧ c1Buf ≠ format1Buf := by
  constructor
  · decide
  · decide

/-- C1 (amended): parse-then-write is the identity on canonical buffers.
If `parse` accepts a buffer with nothing left over, the unvalidated
header fields are exactly the fixed bytes `_write_header` emits, the root
upvalue byte equals the decoded main prototype's upvalue count, and every
re-derived group of every prototype re-encodes to its captured raw span
(`protoCanon`), then `_write_luac_file` reproduces the input buffer
byte for byte. -/
theorem c1_canonical_roundtrip (b : Bytes) (hdr : HeaderInfo) (uc : Nat) (main : Proto)
    (hp : parseLuac b = .ok (hdr, uc, main, []))
    (hhdr : headerCanon hdr = true)
    (huc : uc = main.data.upvalues.length)
    (hcanon : protoCanon true main = true) :
    writeLuacFile main = b := by
  simp only [parseLuac, bind, Except.bind] at hp
  cases h1 : checkHeader b with
  | error e => rw [h1] at hp; simp at hp
  | ok t1 =>
    rw [h1] at hp
    obtain ⟨hd1, s1⟩ := t1
    simp only [] at hp
    cases h2 : readByteRaw s1 with
    | error e => rw [h2] at hp; simp at hp
    | ok t2 =>
      rw [h2] at hp
      obtain ⟨uc1, ucr, s2⟩ := t2
      simp only [] at hp
      cases h3 : readProtoF (b.length + 1) [] s2 with
      | error e => rw [h3] at hp; simp at hp
      | ok t3 =>
        rw [h3] at hp
        obtain ⟨main1, s3⟩ := t3
        simp only [Except.ok.injEq, Prod.mk.injEq] at hp
        obtain ⟨hh, hu, hm, hr⟩ := hp
        subst hh; subst hu; subst hm; subst hr
        have hmain := readProtoF_write _ _ _ _ _ true h3 hcanon
        rw [List.append_nil] at hmain
        obtain ⟨hucr, hs1⟩ := readByteRaw_ok h2
        have hhdrspan := checkHeader_span h1 hhdr
        rw [hhdrspan, hs1]
        simp only [writeLuacFile]
        rw [← huc, hmain]
        simp

/-- Witness: the canonical minimal chunk `c1Buf` parses to `c1Hdr` /
`c1Proto` with empty rest, satisfies every canonicity hypothesis, and
writes back to itself. -/
theorem c1_canonical_roundtrip_witness :
    parseLuac c1Buf = .ok (c1Hdr, 0, c1Proto, []) ∧ writeLuacFile c1Proto = c1Buf :=
  ⟨by decide,
   c1_canonical_roundtrip c1Buf c1Hdr 0 c1Proto (by decide) (by decide) (by decide)
     (by decide)⟩
